import Mathlib

/-!
Shallow embedding of `src/cstr.mjs` (a lazy reactive-value engine).

The JavaScript program has three collaborating pieces:

* `ConstraintSystem` — process-wide state: `demandingVariables` (a stack of
  variables whose formulas are currently executing), `daemonQueue` (one-shot
  callables flushed before any value read) and `executingDaemons` (the batch
  taken by a running flush, `null` when no flush is active);
* `Dependency` — an edge from a depended-upon variable to a dependent
  variable, carrying a `tick` snapshot (`dependent.tick + 1` at creation /
  refresh time);
* `Variable` — a cell holding `_value`, an optional `_formula`, an optional
  `_thisFormula` binding target, an optional `_outOfDateDaemon`, a `tick`
  generation counter, an `_outOfDate` staleness flag and a `_dependents` list.

Variables live in a store and are referred to by index (`VarId`), which models
JavaScript object identity (the source deduplicates dependency edges and
guards cycles by `===` identity).

User-supplied formulas are modelled by a small expression language `Expr`
(constants, integer arithmetic, reading a variable's `value` getter, and
throwing), and user-supplied daemons by a command language `Cmd` (bumping a
named external counter — the `n++` closures of the test-suite —, appending to
an external log, reading a variable, registering a system daemon, sequencing,
and throwing).  This is the repertoire the specification's scenarios use.
Values are integers.

All stateful source methods become functions `Nat → State → … → Res _`:
state-passing plus a fuel argument that makes the mutual recursion (a formula
read can re-enter the evaluator) structurally terminating.  `Res` has three
outcomes: `ok` (normal return), `exn` (a JavaScript exception propagating,
carrying the mutated state, since the source installs no try/finally
anywhere), and `oot` (fuel exhausted — never claimed to correspond to any
source behaviour; theorems use concrete fuel large enough that it does not
occur, or are vacuous on it).
-/

abbrev VarId := Nat
abbrev CtrId := Nat

/-- Formula language: the bodies of the zero-argument `formula` closures that
appear in the repository (constants, `+`, `*`, reading `v.value`, throwing). -/
inductive Expr where
  | const : Int → Expr
  | readVar : VarId → Expr
  | add : Expr → Expr → Expr
  | mul : Expr → Expr → Expr
  | throwErr : Expr
deriving Repr, DecidableEq

/-- Daemon language: the bodies of `outOfDateDaemon` / `addDaemon` thunks
appearing in the repository (`n++` counter bumps, logging, reading a variable,
registering another daemon, sequencing, throwing). -/
inductive Cmd where
  | skip : Cmd
  | incr : CtrId → Cmd
  | logVal : Int → Cmd
  | readVar : VarId → Cmd
  | addDaemon : Cmd → Cmd
  | seq : Cmd → Cmd → Cmd
  | throwErr : Cmd
deriving Repr, DecidableEq

/-- `class Dependency`: edge to the dependent variable (source field
`variable`, renamed `target` because `variable` is a Lean keyword) plus the
snapshot `tick` set to `variable.tick + 1` at creation/refresh. -/
structure Dependency where
  target : VarId
  tick : Nat
deriving Repr, DecidableEq

/-- The per-`Variable` mutable fields of `class Variable`. -/
structure VarState where
  value : Int
  formula : Option Expr
  thisFormula : Option Int
  outOfDateDaemon : Option Cmd
  tick : Nat
  outOfDate : Bool
  dependents : List Dependency
deriving Repr, DecidableEq

/-- Whole-program state: the variable store (JS heap of `Variable` objects,
indexed by `VarId`), the fields of the singleton `ConstraintSystem`, and the
external closure variables daemons mutate (`counters` for the `n++` cells,
`log` for order-observing daemons). -/
structure State where
  vars : List VarState
  demandingVariables : List VarId
  daemonQueue : List Cmd
  executingDaemons : Option (List Cmd)
  counters : Nat → Int
  log : List Int

/-- Result of a stateful operation: normal return, propagating JS exception
(with the state as mutated so far), or out of fuel. -/
inductive Res (α : Type) where
  | ok : α → State → Res α
  | exn : State → Res α
  | oot : Res α

def defaultVar : VarState :=
  { value := 0, formula := none, thisFormula := none, outOfDateDaemon := none,
    tick := 0, outOfDate := false, dependents := [] }

def getVar (s : State) (i : VarId) : VarState := s.vars.getD i defaultVar

def setVar (s : State) (i : VarId) (v : VarState) : State :=
  { s with vars := s.vars.set i v }

def ctr (s : State) (c : CtrId) : Int := s.counters c

def bumpCtr (s : State) (c : CtrId) : State :=
  { s with counters := fun k => if k = c then s.counters c + 1 else s.counters k }

/-- `new Variable({value, formula, thisFormula, outOfDateDaemon})`:
`tick = 0`, `_outOfDate = formula !== null`, `_dependents = []`. -/
def mkVar (value : Int) (formula : Option Expr) (thisFormula : Option Int)
    (outOfDateDaemon : Option Cmd) : VarState :=
  { value := value, formula := formula, thisFormula := thisFormula,
    outOfDateDaemon := outOfDateDaemon, tick := 0,
    outOfDate := formula.isSome, dependents := [] }

def Res.isOk : Res α → Bool
  | .ok _ _ => true
  | _ => false

def Res.isExn : Res α → Bool
  | .exn _ => true
  | _ => false

def Res.isOot : Res α → Bool
  | .oot => true
  | _ => false

def Res.val? : Res α → Option α
  | .ok a _ => some a
  | _ => none

/-- The state carried by the result (`none` only for fuel exhaustion). -/
def Res.state? : Res α → Option State
  | .ok _ s => some s
  | .exn s => some s
  | .oot => none

/-- The state carried by the result, with a fallback for fuel exhaustion. -/
def resState (r : Res α) (s₀ : State) : State :=
  match r with
  | .ok _ s => s
  | .exn s => s
  | .oot => s₀

/-- `updateDependencies` (source lines 258–268): if some variable sits on top
of `demandingVariables` (JS `push` appends, so top = last element), add it as
a new `Dependency` of the receiver if absent, else refresh the first matching
edge's `tick` to `demandingVariable.tick + 1`. -/
def refreshDep (d : VarId) (t : Nat) : List Dependency → List Dependency
  | [] => []
  | dep :: rest =>
      if dep.target == d then { dep with tick := t } :: rest
      else dep :: refreshDep d t rest

def updateDependencies (s : State) (i : VarId) : State :=
  match s.demandingVariables.getLast? with
  | none => s
  | some d =>
      let v := getVar s i
      match v.dependents.find? (fun dep => dep.target == d) with
      | none =>
          setVar s i
            { v with dependents := v.dependents ++ [Dependency.mk d ((getVar s d).tick + 1)] }
      | some _ =>
          setVar s i
            { v with dependents := refreshDep d ((getVar s d).tick + 1) v.dependents }

/-- Removal of one collected edge in `mark`'s `removals.forEach` loop
(`indexOf` + `splice(pos, 1)`: delete the first matching occurrence). -/
def removeFirst (dep : Dependency) : List Dependency → List Dependency
  | [] => []
  | d :: rest => if d == dep then rest else d :: removeFirst dep rest

def removeDeps (s : State) (i : VarId) (removals : List Dependency) : State :=
  removals.foldl
    (fun s' dep =>
      let v := getVar s' i
      setVar s' i { v with dependents := removeFirst dep v.dependents }) s

/-- The `system.demandingVariables.push(this); this._outOfDate = false;` prefix
of `computeFormula` (both happen before the formula is even looked up). -/
def pushClear (s : State) (i : VarId) : State :=
  { setVar s i { getVar s i with outOfDate := false } with
    demandingVariables := s.demandingVariables ++ [i] }

/-- The `this._value = boundFormula(); this.tick++;` suffix of `computeFormula`. -/
def storeResult (s : State) (i : VarId) (val : Int) : State :=
  setVar s i { getVar s i with value := val, tick := (getVar s i).tick + 1 }

/-- `system.demandingVariables.pop();`. -/
def popDemand (s : State) : State :=
  { s with demandingVariables := s.demandingVariables.dropLast }

/-- `this.executingDaemons = this.daemonQueue; this.daemonQueue = [];`. -/
def takeQueue (s : State) : State :=
  { s with executingDaemons := some s.daemonQueue, daemonQueue := [] }

/-- `this.executingDaemons = null;`. -/
def clearExecuting (s : State) : State :=
  { s with executingDaemons := none }

/-- `this._outOfDate = true;` inside `mark`. -/
def markStale (s : State) (i : VarId) : State :=
  setVar s i { getVar s i with outOfDate := true }

mutual

/-- Evaluation of a formula body.  `readVar` is the `value` getter. -/
def evalExpr : Nat → State → Expr → Res Int
  | 0, _, _ => .oot
  | _ + 1, s, .const v => .ok v s
  | fuel + 1, s, .readVar i => getValue fuel s i
  | fuel + 1, s, .add a b =>
      match evalExpr fuel s a with
      | .ok va s₁ =>
          match evalExpr fuel s₁ b with
          | .ok vb s₂ => .ok (va + vb) s₂
          | .exn s₂ => .exn s₂
          | .oot => .oot
      | .exn s₁ => .exn s₁
      | .oot => .oot
  | fuel + 1, s, .mul a b =>
      match evalExpr fuel s a with
      | .ok va s₁ =>
          match evalExpr fuel s₁ b with
          | .ok vb s₂ => .ok (va * vb) s₂
          | .exn s₂ => .exn s₂
          | .oot => .oot
      | .exn s₁ => .exn s₁
      | .oot => .oot
  | _ + 1, s, .throwErr => .exn s

/-- `get value()` (source lines 123–127): `system.executeDaemons();
this.sweep(); return this._value;`. -/
def getValue : Nat → State → VarId → Res Int
  | 0, _, _ => .oot
  | fuel + 1, s, i =>
      match executeDaemons fuel s with
      | .ok _ s₁ =>
          match sweep fuel s₁ i with
          | .ok _ s₂ => .ok (getVar s₂ i).value s₂
          | .exn s₂ => .exn s₂
          | .oot => .oot
      | .exn s₁ => .exn s₁
      | .oot => .oot

/-- `sweep()`: `this.updateDependencies(); this.computeFormula();`. -/
def sweep : Nat → State → VarId → Res Unit
  | 0, _, _ => .oot
  | fuel + 1, s, i => computeFormula fuel (updateDependencies s i) i

/-- `computeFormula()` (source lines 276–285).  The guard is only
`this._outOfDate`; the source then pushes onto `demandingVariables`, clears
`_outOfDate`, and only then evaluates `this._formula.bind(...)` — which
throws a `TypeError` when `_formula` is `null` (modelled by `.exn`).  On a
formula exception the trailing `pop()` never runs (no try/finally in the
source), so the demand stack stays pushed. -/
def computeFormula : Nat → State → VarId → Res Unit
  | 0, _, _ => .oot
  | fuel + 1, s, i =>
      if (getVar s i).outOfDate then
        match (getVar (pushClear s i) i).formula with
        | none => .exn (pushClear s i)
        | some e =>
            match evalExpr fuel (pushClear s i) e with
            | .ok val s₂ => .ok () (popDemand (storeResult s₂ i val))
            | .exn s₂ => .exn s₂
            | .oot => .oot
      else .ok () s

/-- `ConstraintSystem.executeDaemons()` (source lines 32–39): if the queue is
non-empty and no flush is active, take the queue into `executingDaemons`,
clear the live queue, run the taken batch in order, then reset
`executingDaemons` to `null`.  A daemon exception skips the reset (no
try/finally in the source). -/
def executeDaemons : Nat → State → Res Unit
  | 0, _ => .oot
  | fuel + 1, s =>
      if s.daemonQueue.length > 0 && s.executingDaemons.isNone then
        match runDaemons fuel (takeQueue s) s.daemonQueue with
        | .ok _ s₂ => .ok () (clearExecuting s₂)
        | .exn s₂ => .exn s₂
        | .oot => .oot
      else .ok () s

/-- The `this.executingDaemons.forEach(daemon => { daemon(); })` loop, over
the snapshot taken by `executeDaemons` (appends go to the new live queue, so
the iterated batch is fixed). -/
def runDaemons : Nat → State → List Cmd → Res Unit
  | 0, _, _ => .oot
  | _ + 1, s, [] => .ok () s
  | fuel + 1, s, d :: rest =>
      match runCmd fuel s d with
      | .ok _ s₁ => runDaemons fuel s₁ rest
      | .exn s₁ => .exn s₁
      | .oot => .oot

/-- Execution of one user daemon thunk. -/
def runCmd : Nat → State → Cmd → Res Unit
  | 0, _, _ => .oot
  | _ + 1, s, .skip => .ok () s
  | _ + 1, s, .incr c => .ok () (bumpCtr s c)
  | _ + 1, s, .logVal v => .ok () { s with log := s.log ++ [v] }
  | fuel + 1, s, .readVar i =>
      match getValue fuel s i with
      | .ok _ s₁ => .ok () s₁
      | .exn s₁ => .exn s₁
      | .oot => .oot
  | _ + 1, s, .addDaemon d => .ok () { s with daemonQueue := s.daemonQueue ++ [d] }
  | fuel + 1, s, .seq a b =>
      match runCmd fuel s a with
      | .ok _ s₁ => runCmd fuel s₁ b
      | .exn s₁ => .exn s₁
      | .oot => .oot
  | _ + 1, s, .throwErr => .exn s

/-- `executeOutOfDateDaemon()` (source lines 236–241). -/
def execOODDaemon : Nat → State → VarId → Res Unit
  | 0, _, _ => .oot
  | fuel + 1, s, i =>
      match (getVar s i).outOfDateDaemon with
      | none => .ok () s
      | some d => runCmd fuel s d

/-- `mark(marked)` (source lines 210–230): if the receiver is not out of date
and not already in the transient marking list, push it, set `_outOfDate`,
fire its daemon, walk the dependents (stale edges are collected for removal,
current edges are recursively marked), splice out the collected edges, and
pop the marking list.  The marking list is threaded as a value; a completed
call returns it unchanged (everything pushed is popped). -/
def mark : Nat → State → VarId → List VarId → Res (List VarId)
  | 0, _, _, _ => .oot
  | fuel + 1, s, i, marked =>
      if !(getVar s i).outOfDate && !(marked.contains i) then
        match execOODDaemon fuel (markStale s i) i with
        | .ok _ s₂ =>
            match markDeps fuel s₂ (getVar s₂ i).dependents (marked ++ [i]) [] with
            | .ok (marked₂, removals) s₃ =>
                .ok marked₂.dropLast (removeDeps s₃ i removals)
            | .exn s₃ => .exn s₃
            | .oot => .oot
        | .exn s₂ => .exn s₂
        | .oot => .oot
      else .ok marked s

/-- The `this._dependents.forEach(dep => …)` loop of `mark`, iterating the
snapshot of the dependents list and accumulating the `removals`. -/
def markDeps : Nat → State → List Dependency → List VarId → List Dependency →
    Res (List VarId × List Dependency)
  | 0, _, _, _, _ => .oot
  | _ + 1, s, [], marked, removals => .ok (marked, removals) s
  | fuel + 1, s, dep :: rest, marked, removals =>
      if dep.tick < (getVar s dep.target).tick then
        markDeps fuel s rest marked (removals ++ [dep])
      else
        match mark fuel s dep.target marked with
        | .ok marked₁ s₁ => markDeps fuel s₁ rest marked₁ removals
        | .exn s₁ => .exn s₁
        | .oot => .oot

end

/-- `set value(value)` (source lines 143–149): store the value, drop the
formula and the out-of-date daemon, run `mark` (with a fresh marking list),
then clear `_outOfDate`. -/
def clearToValue (s : State) (i : VarId) (v : Int) : State :=
  setVar s i { getVar s i with value := v, formula := none, outOfDateDaemon := none }

def seedValue (s : State) (i : VarId) (v : Int) : State :=
  setVar s i { getVar s i with value := v }

def installFormula (s : State) (i : VarId) (e : Expr) : State :=
  setVar s i { getVar s i with formula := some e }

def clearStale (s : State) (i : VarId) : State :=
  setVar s i { getVar s i with outOfDate := false }

def setValue (fuel : Nat) (s : State) (i : VarId) (v : Int) : Res Unit :=
  match mark fuel (clearToValue s i v) i [] with
  | .ok _ s₂ => .ok () (clearStale s₂ i)
  | .exn s₂ => .exn s₂
  | .oot => .oot

/-- `set formulaValue(value)` (source lines 156–160): like the write setter
but keeping the formula and the daemon. -/
def setFormulaValue (fuel : Nat) (s : State) (i : VarId) (v : Int) : Res Unit :=
  match mark fuel (seedValue s i v) i [] with
  | .ok _ s₂ => .ok () (clearStale s₂ i)
  | .exn s₂ => .exn s₂
  | .oot => .oot

/-- `set formula(formula)` (source lines 168–171): replace the callable and
run `mark`; nothing else. -/
def setFormula (fuel : Nat) (s : State) (i : VarId) (e : Expr) : Res Unit :=
  match mark fuel (installFormula s i e) i [] with
  | .ok _ s₂ => .ok () s₂
  | .exn s₂ => .exn s₂
  | .oot => .oot

/-- `peek()` (source lines 133–135): return the stored value, no flush, no
dependency recording, no recomputation — a pure observation. -/
def peek (s : State) (i : VarId) : Int := (getVar s i).value

/-- Module-level `addDaemon` (source lines 293–295). -/
def addSystemDaemon (s : State) (d : Cmd) : State :=
  { s with daemonQueue := s.daemonQueue ++ [d] }

/-- `set thisFormula(thisFormula)` (source lines 178–180). -/
def setThisFormula (s : State) (i : VarId) (t : Option Int) : State :=
  setVar s i { getVar s i with thisFormula := t }

/-- `set outOfDateDaemon(daemon)` (source lines 186–188). -/
def setOutOfDateDaemon (s : State) (i : VarId) (d : Option Cmd) : State :=
  setVar s i { getVar s i with outOfDateDaemon := d }

/-- One public operation on the system, as driven by client code. -/
inductive Op where
  | read : VarId → Op
  | write : VarId → Int → Op
  | writeFormulaValue : VarId → Int → Op
  | writeFormula : VarId → Expr → Op
  | peekOp : VarId → Op
  | register : Cmd → Op
  | setDaemon : VarId → Option Cmd → Op
  | setThis : VarId → Option Int → Op
deriving Repr, DecidableEq

def runOp (fuel : Nat) (s : State) : Op → Res Unit
  | .read i =>
      match getValue fuel s i with
      | .ok _ s₁ => .ok () s₁
      | .exn s₁ => .exn s₁
      | .oot => .oot
  | .write i v => setValue fuel s i v
  | .writeFormulaValue i v => setFormulaValue fuel s i v
  | .writeFormula i e => setFormula fuel s i e
  | .peekOp _ => .ok () s
  | .register d => .ok () (addSystemDaemon s d)
  | .setDaemon i d => .ok () (setOutOfDateDaemon s i d)
  | .setThis i t => .ok () (setThisFormula s i t)

/-- Run a straight-line client program; a JS exception aborts the rest. -/
def runOps (fuel : Nat) (s : State) : List Op → Res Unit
  | [] => .ok () s
  | op :: rest =>
      match runOp fuel s op with
      | .ok _ s₁ => runOps fuel s₁ rest
      | .exn s₁ => .exn s₁
      | .oot => .oot

/-- An empty constraint system with the given variable store. -/
def initState (vs : List VarState) : State :=
  { vars := vs, demandingVariables := [], daemonQueue := [],
    executingDaemons := none, counters := fun _ => 0, log := [] }

/-! ### Store lemmas -/

theorem vars_length_setVar (s : State) (i : VarId) (v : VarState) :
    (setVar s i v).vars.length = s.vars.length :=
  List.length_set s.vars i v

theorem getVar_setVar_self (s : State) (i : VarId) (v : VarState)
    (h : i < s.vars.length) : getVar (setVar s i v) i = v := by
  simp [getVar, setVar, List.getD_eq_getElem?_getD, List.getElem?_set_self h]

theorem getVar_setVar_ne (s : State) {i j : VarId} (v : VarState) (h : i ≠ j) :
    getVar (setVar s i v) j = getVar s j := by
  simp [getVar, setVar, List.getD_eq_getElem?_getD, List.getElem?_set_ne h]

theorem setVar_of_length_le (s : State) (i : VarId) (v : VarState)
    (h : s.vars.length ≤ i) : setVar s i v = s := by
  simp [setVar, List.set_eq_of_length_le h]

theorem getVar_of_length_le (s : State) (i : VarId) (h : s.vars.length ≤ i) :
    getVar s i = defaultVar := by
  simp [getVar, List.getD_eq_getElem?_getD, List.getElem?_eq_none h]

theorem lt_length_of_outOfDate {s : State} {i : VarId}
    (h : (getVar s i).outOfDate = true) : i < s.vars.length := by
  by_contra hn
  rw [getVar_of_length_le s i (Nat.le_of_not_lt hn)] at h
  simp [defaultVar] at h

theorem getVar_mem {s : State} {i : VarId} (h : i < s.vars.length) :
    getVar s i ∈ s.vars := by
  unfold getVar
  rw [List.getD_eq_getElem?_getD]
  cases hx : s.vars[i]? with
  | none => rw [List.getElem?_eq_getElem h] at hx; cases hx
  | some a => simpa using List.getElem?_mem hx


/-! ### Dependency-edge key lemmas -/

def depTargets (l : List Dependency) : List VarId := l.map Dependency.target

theorem depTargets_refreshDep (d : VarId) (t : Nat) :
    ∀ l : List Dependency, depTargets (refreshDep d t l) = depTargets l := by
  intro l
  induction l with
  | nil => rfl
  | cons dep rest ih =>
      by_cases h : dep.target = d
      · simp [refreshDep, h, depTargets]
      · simp only [refreshDep, depTargets, List.map_cons] at *
        rw [if_neg (by simp [h]), List.map_cons, ih]

theorem removeFirst_sublist (dep : Dependency) :
    ∀ l : List Dependency, (removeFirst dep l).Sublist l := by
  intro l
  induction l with
  | nil => simp [removeFirst]
  | cons d rest ih =>
      by_cases h : d = dep
      · simp [removeFirst, h]
      · simp only [removeFirst, if_neg (by simp [h] : ¬(d == dep) = true)]
        exact ih.cons₂ d

/-- The global invariant of claim C8: every variable's dependents hold at most
one edge per distinct dependent. -/
def DepsNodup (s : State) : Prop :=
  ∀ v ∈ s.vars, (depTargets v.dependents).Nodup

instance (s : State) : Decidable (DepsNodup s) := by
  unfold DepsNodup
  exact List.decidableBAll _ _

theorem depsNodup_getVar {s : State} (h : DepsNodup s) (i : VarId) :
    (depTargets (getVar s i).dependents).Nodup := by
  by_cases hi : i < s.vars.length
  · exact h _ (getVar_mem hi)
  · rw [getVar_of_length_le s i (Nat.le_of_not_lt hi)]
    simp [defaultVar, depTargets]

theorem depsNodup_setVar {s : State} (i : VarId) {v : VarState} (h : DepsNodup s)
    (hv : (depTargets v.dependents).Nodup) : DepsNodup (setVar s i v) := by
  intro w hw
  rcases List.mem_or_eq_of_mem_set hw with h1 | h1
  · exact h w h1
  · rw [h1]; exact hv

/-! ### The unconditional interpreter invariant

`SysInv s s'` collects the facts that hold between the entry state and the state
carried by the result of every interpreter function, with no hypotheses about
the program: the store size is fixed, generation counters never decrease
(claim C7), the dedup invariant on dependency edges is preserved (claim C8),
and once `executingDaemons` is stuck at `some batch` it stays stuck while the
daemon queue only ever grows (claim C10). -/

structure SysInv (s s' : State) : Prop where
  len : s'.vars.length = s.vars.length
  tick : ∀ j, (getVar s j).tick ≤ (getVar s' j).tick
  nodup : DepsNodup s → DepsNodup s'
  stuck : ∀ d, s.executingDaemons = some d →
    s'.executingDaemons = some d ∧ ∃ ex, s'.daemonQueue = s.daemonQueue ++ ex

theorem SysInv.selfSys (s : State) : SysInv s s :=
  ⟨Eq.refl _, fun _ => Nat.le.refl, id, fun d h => ⟨h, [], by simp⟩⟩

theorem SysInv.transSys {s₁ s₂ s₃ : State} (a : SysInv s₁ s₂) (b : SysInv s₂ s₃) : SysInv s₁ s₃ := by
  refine ⟨b.len.trans a.len, fun j => (a.tick j).trans (b.tick j),
    fun h => b.nodup (a.nodup h), fun d h => ?_⟩
  obtain ⟨h₂, ex, hex⟩ := a.stuck d h
  obtain ⟨h₃, ex', hex'⟩ := b.stuck d h₂
  exact ⟨h₃, ex ++ ex', by rw [hex', hex, List.append_assoc]⟩

/-- A state change that leaves `vars`, `executingDaemons` untouched and only
appends to the daemon queue satisfies the invariant. -/
theorem SysInv.ofSystem {s s' : State} (hv : s'.vars = s.vars)
    (he : s'.executingDaemons = s.executingDaemons)
    (hq : ∃ ex, s'.daemonQueue = s.daemonQueue ++ ex) : SysInv s s' := by
  refine ⟨by rw [hv], fun j => by simp [getVar, hv], fun h w hw => ?_, fun d hd => ?_⟩
  · rw [hv] at hw; exact h w hw
  · exact ⟨by rw [he, hd], hq⟩

theorem SysInv.ofSetVar {s : State} {i : VarId} {v : VarState}
    (ht : (getVar s i).tick ≤ v.tick)
    (hn : DepsNodup s → (depTargets v.dependents).Nodup) : SysInv s (setVar s i v) := by
  by_cases hi : i < s.vars.length
  · refine ⟨vars_length_setVar s i v, fun j => ?_, fun h => ?_, fun d hd => ⟨hd, [], by simp [setVar]⟩⟩
    · by_cases hj : j = i
      · subst hj; rw [getVar_setVar_self s j v hi]; exact ht
      · rw [getVar_setVar_ne s v (fun h => hj h.symm)]
    · exact depsNodup_setVar i h (hn h)
  · rw [setVar_of_length_le s i v (Nat.le_of_not_lt hi)]
    exact SysInv.selfSys s

theorem getVar_congr {s s' : State} (h : s'.vars = s.vars) (j : VarId) :
    getVar s' j = getVar s j := by
  simp [getVar, h]

theorem depsNodup_congr {s s' : State} (h : s'.vars = s.vars)
    (hn : DepsNodup s) : DepsNodup s' := by
  intro w hw
  rw [h] at hw
  exact hn w hw

/-- An arbitrary change of the system fields is invariant-preserving when no
flush is active (the `stuck` clause is then vacuous) and `vars` is untouched. -/
theorem SysInv.ofVarsEqNoFlush {s s' : State} (hv : s'.vars = s.vars)
    (he : s.executingDaemons = none) : SysInv s s' :=
  ⟨by rw [hv], fun j => by rw [getVar_congr hv], depsNodup_congr hv,
   fun d hd => absurd (he ▸ hd) (by simp)⟩

theorem sysInv_updateDependencies (s : State) (i : VarId) :
    SysInv s (updateDependencies s i) := by
  unfold updateDependencies
  cases hl : s.demandingVariables.getLast? with
  | none => exact SysInv.selfSys s
  | some d =>
      simp only
      cases hf : (getVar s i).dependents.find? (fun dep => dep.target == d) with
      | none =>
          refine SysInv.ofSetVar (Nat.le.refl) (fun h => ?_)
          have hnotin : d ∉ depTargets (getVar s i).dependents := by
            intro hmem
            obtain ⟨dep, hdep, hd⟩ := List.mem_map.mp hmem
            have := List.find?_eq_none.mp hf dep hdep
            simp [hd] at this
          have hbase := depsNodup_getVar h i
          have hgoal : (depTargets ((getVar s i).dependents ++
              [Dependency.mk d ((getVar s d).tick + 1)])).Nodup := by
            simp only [depTargets, List.map_append, List.map_cons, List.map_nil]
            refine List.nodup_append.mpr ⟨hbase, by simp, ?_⟩
            intro a ha hb
            simp only [List.mem_singleton] at hb
            subst hb
            exact hnotin ha
          exact hgoal
      | some dep =>
          refine SysInv.ofSetVar (Nat.le.refl) (fun h => ?_)
          rw [show ({ getVar s i with dependents := refreshDep d ((getVar s d).tick + 1) (getVar s i).dependents } : VarState).dependents = refreshDep d ((getVar s d).tick + 1) (getVar s i).dependents from rfl,
            depTargets_refreshDep]
          exact depsNodup_getVar h i

theorem sysInv_removeDeps (i : VarId) :
    ∀ (rem : List Dependency) (s : State), SysInv s (removeDeps s i rem) := by
  intro rem
  induction rem with
  | nil => intro s; exact SysInv.selfSys s
  | cons dep rest ih =>
      intro s
      have hstep : SysInv s (setVar s i
          { getVar s i with dependents := removeFirst dep (getVar s i).dependents }) := by
        refine SysInv.ofSetVar (Nat.le.refl) (fun h => ?_)
        have hsub := (removeFirst_sublist dep (getVar s i).dependents).map Dependency.target
        exact List.Nodup.sublist hsub (depsNodup_getVar h i)
      have : removeDeps s i (dep :: rest) =
          removeDeps (setVar s i
            { getVar s i with dependents := removeFirst dep (getVar s i).dependents }) i rest := rfl
      rw [this]
      exact hstep.transSys (ih _)

/-- The invariant, lifted to interpreter results. -/
def ResInv (s : State) (r : Res α) : Prop :=
  ∀ s', r.state? = some s' → SysInv s s'

theorem resInv_ok {s s' : State} {a : α} (h : SysInv s s') :
    ResInv s (Res.ok a s') := by
  intro t ht
  cases ht
  exact h

theorem resInv_exn {s s' : State} (h : SysInv s s') :
    ResInv s (Res.exn (α := α) s') := by
  intro t ht
  cases ht
  exact h

theorem resInv_oot {s : State} : ResInv s (Res.oot (α := α)) := by
  intro t ht
  cases ht

theorem ResInv.okCaseSys {s : State} {r : Res α} (h : ResInv s r) {a : α} {s' : State}
    (he : r = .ok a s') : SysInv s s' :=
  h s' (by rw [he]; rfl)

theorem ResInv.exnCaseSys {s : State} {r : Res α} (h : ResInv s r) {s' : State}
    (he : r = .exn s') : SysInv s s' :=
  h s' (by rw [he]; rfl)

/-- Invariance facts for the named helper transitions. -/
theorem sysInv_pushClear (s : State) (i : VarId) : SysInv s (pushClear s i) := by
  have h1 : SysInv s (setVar s i { getVar s i with outOfDate := false }) :=
    SysInv.ofSetVar (Nat.le.refl) (fun h => depsNodup_getVar h i)
  exact h1.transSys (SysInv.ofSystem rfl rfl ⟨[], by simp [pushClear]⟩)

theorem sysInv_storeResult (s : State) (i : VarId) (val : Int) :
    SysInv s (storeResult s i val) :=
  SysInv.ofSetVar (Nat.le_succ _) (fun h => depsNodup_getVar h i)

theorem sysInv_popDemand (s : State) : SysInv s (popDemand s) :=
  SysInv.ofSystem rfl rfl ⟨[], by simp [popDemand]⟩

theorem sysInv_markStale (s : State) (i : VarId) : SysInv s (markStale s i) :=
  SysInv.ofSetVar (Nat.le.refl) (fun h => depsNodup_getVar h i)

/-- Master lemma: every interpreter function preserves `SysInv` between its
entry state and any state its result carries (normal or exceptional). -/
theorem sysInv_main : ∀ fuel : Nat,
    (∀ s e, ResInv s (evalExpr fuel s e)) ∧
    (∀ s i, ResInv s (getValue fuel s i)) ∧
    (∀ s i, ResInv s (sweep fuel s i)) ∧
    (∀ s i, ResInv s (computeFormula fuel s i)) ∧
    (∀ s, ResInv s (executeDaemons fuel s)) ∧
    (∀ s ds, ResInv s (runDaemons fuel s ds)) ∧
    (∀ s c, ResInv s (runCmd fuel s c)) ∧
    (∀ s i, ResInv s (execOODDaemon fuel s i)) ∧
    (∀ s i m, ResInv s (mark fuel s i m)) ∧
    (∀ s deps m rem, ResInv s (markDeps fuel s deps m rem)) := by
  intro fuel
  induction fuel with
  | zero =>
      refine ⟨?_, ?_, ?_, ?_, ?_, ?_, ?_, ?_, ?_, ?_⟩ <;> intros <;> exact resInv_oot
  | succ f ih =>
      obtain ⟨ihEval, ihGet, ihSweep, ihCompute, ihExec, ihDs, ihCmd, ihOOD,
        ihMark, ihMarkDeps⟩ := ih
      have hEval : ∀ s e, ResInv s (evalExpr (f + 1) s e) := by
        intro s e
        match e with
        | .const v => exact resInv_ok (SysInv.selfSys s)
        | .readVar i => exact ihGet s i
        | .add a b =>
            show ResInv s (evalExpr (f + 1) s (.add a b))
            rw [evalExpr]
            split
            next va s₁ h₁ =>
              split
              next vb s₂ h₂ =>
                exact resInv_ok (((ihEval s a).okCaseSys h₁).transSys ((ihEval s₁ b).okCaseSys h₂))
              next s₂ h₂ =>
                exact resInv_exn (((ihEval s a).okCaseSys h₁).transSys ((ihEval s₁ b).exnCaseSys h₂))
              next h₂ => exact resInv_oot
            next s₁ h₁ => exact resInv_exn ((ihEval s a).exnCaseSys h₁)
            next h₁ => exact resInv_oot
        | .mul a b =>
            show ResInv s (evalExpr (f + 1) s (.mul a b))
            rw [evalExpr]
            split
            next va s₁ h₁ =>
              split
              next vb s₂ h₂ =>
                exact resInv_ok (((ihEval s a).okCaseSys h₁).transSys ((ihEval s₁ b).okCaseSys h₂))
              next s₂ h₂ =>
                exact resInv_exn (((ihEval s a).okCaseSys h₁).transSys ((ihEval s₁ b).exnCaseSys h₂))
              next h₂ => exact resInv_oot
            next s₁ h₁ => exact resInv_exn ((ihEval s a).exnCaseSys h₁)
            next h₁ => exact resInv_oot
        | .throwErr => exact resInv_exn (SysInv.selfSys s)
      have hCompute : ∀ s i, ResInv s (computeFormula (f + 1) s i) := by
        intro s i
        rw [computeFormula]
        split
        next hod =>
          have hA : SysInv s (pushClear s i) := sysInv_pushClear s i
          split
          next hf => exact resInv_exn hA
          next e hf =>
            split
            next val s₂ h₂ =>
              exact resInv_ok (((hA.transSys ((ihEval _ e).okCaseSys h₂)).transSys
                (sysInv_storeResult s₂ i val)).transSys (sysInv_popDemand _))
            next s₂ h₂ => exact resInv_exn (hA.transSys ((ihEval _ e).exnCaseSys h₂))
            next h₂ => exact resInv_oot
        next hod => exact resInv_ok (SysInv.selfSys s)
      have hSweep : ∀ s i, ResInv s (sweep (f + 1) s i) := by
        intro s i
        rw [sweep]
        intro s' h
        exact (sysInv_updateDependencies s i).transSys ((ihCompute (updateDependencies s i) i) s' h)
      have hExec : ∀ s, ResInv s (executeDaemons (f + 1) s) := by
        intro s
        rw [executeDaemons]
        split
        next hg =>
          have hnone : s.executingDaemons = none := by
            have := (Bool.and_eq_true _ _).mp hg
            exact Option.isNone_iff_eq_none.mp this.2
          have hA : SysInv s (takeQueue s) := SysInv.ofVarsEqNoFlush rfl hnone
          split
          next u s₂ h₂ =>
            have hB : SysInv s s₂ := hA.transSys ((ihDs (takeQueue s) s.daemonQueue).okCaseSys h₂)
            refine resInv_ok ⟨hB.len, hB.tick, hB.nodup, fun d hd => ?_⟩
            exact absurd (hnone ▸ hd) (by simp)
          next s₂ h₂ =>
            exact resInv_exn (hA.transSys ((ihDs (takeQueue s) s.daemonQueue).exnCaseSys h₂))
          next h₂ => exact resInv_oot
        next hg => exact resInv_ok (SysInv.selfSys s)
      have hGet : ∀ s i, ResInv s (getValue (f + 1) s i) := by
        intro s i
        rw [getValue]
        split
        next u s₁ h₁ =>
          split
          next u₂ s₂ h₂ =>
            exact resInv_ok (((ihExec s).okCaseSys h₁).transSys ((ihSweep s₁ i).okCaseSys h₂))
          next s₂ h₂ =>
            exact resInv_exn (((ihExec s).okCaseSys h₁).transSys ((ihSweep s₁ i).exnCaseSys h₂))
          next h₂ => exact resInv_oot
        next s₁ h₁ => exact resInv_exn ((ihExec s).exnCaseSys h₁)
        next h₁ => exact resInv_oot
      have hCmd : ∀ s c, ResInv s (runCmd (f + 1) s c) := by
        intro s c
        match c with
        | .skip => exact resInv_ok (SysInv.selfSys s)
        | .incr cn => exact resInv_ok (SysInv.ofSystem rfl rfl ⟨[], by simp [bumpCtr]⟩)
        | .logVal v => exact resInv_ok (SysInv.ofSystem rfl rfl ⟨[], by simp⟩)
        | .readVar i =>
            show ResInv s (runCmd (f + 1) s (.readVar i))
            rw [runCmd]
            split
            next v s₁ h₁ => exact resInv_ok ((ihGet s i).okCaseSys h₁)
            next s₁ h₁ => exact resInv_exn ((ihGet s i).exnCaseSys h₁)
            next h₁ => exact resInv_oot
        | .addDaemon d => exact resInv_ok (SysInv.ofSystem rfl rfl ⟨[d], rfl⟩)
        | .seq a b =>
            show ResInv s (runCmd (f + 1) s (.seq a b))
            rw [runCmd]
            split
            next u s₁ h₁ =>
              intro s' h
              exact ((ihCmd s a).okCaseSys h₁).transSys ((ihCmd s₁ b) s' h)
            next s₁ h₁ => exact resInv_exn ((ihCmd s a).exnCaseSys h₁)
            next h₁ => exact resInv_oot
        | .throwErr => exact resInv_exn (SysInv.selfSys s)
      have hDs : ∀ s ds, ResInv s (runDaemons (f + 1) s ds) := by
        intro s ds
        match ds with
        | [] => exact resInv_ok (SysInv.selfSys s)
        | d :: rest =>
            show ResInv s (runDaemons (f + 1) s (d :: rest))
            rw [runDaemons]
            split
            next u s₁ h₁ =>
              intro s' h
              exact ((ihCmd s d).okCaseSys h₁).transSys ((ihDs s₁ rest) s' h)
            next s₁ h₁ => exact resInv_exn ((ihCmd s d).exnCaseSys h₁)
            next h₁ => exact resInv_oot
      have hOOD : ∀ s i, ResInv s (execOODDaemon (f + 1) s i) := by
        intro s i
        rw [execOODDaemon]
        split
        next hd => exact resInv_ok (SysInv.selfSys s)
        next d hd => exact ihCmd s d
      have hMark : ∀ s i m, ResInv s (mark (f + 1) s i m) := by
        intro s i m
        rw [mark]
        split
        next hg =>
          have hA : SysInv s (markStale s i) := sysInv_markStale s i
          split
          next u s₂ h₂ =>
            have hB : SysInv s s₂ := hA.transSys ((ihOOD (markStale s i) i).okCaseSys h₂)
            split
            next marked₂ removals s₃ h₃ =>
              exact resInv_ok ((hB.transSys
                ((ihMarkDeps s₂ (getVar s₂ i).dependents (m ++ [i]) []).okCaseSys h₃)).transSys
                (sysInv_removeDeps i removals s₃))
            next s₃ h₃ =>
              exact resInv_exn (hB.transSys
                ((ihMarkDeps s₂ (getVar s₂ i).dependents (m ++ [i]) []).exnCaseSys h₃))
            next h₃ => exact resInv_oot
          next s₂ h₂ => exact resInv_exn (hA.transSys ((ihOOD (markStale s i) i).exnCaseSys h₂))
          next h₂ => exact resInv_oot
        next hg => exact resInv_ok (SysInv.selfSys s)
      have hMarkDeps : ∀ s deps m rem, ResInv s (markDeps (f + 1) s deps m rem) := by
        intro s deps m rem
        match deps with
        | [] => exact resInv_ok (SysInv.selfSys s)
        | dep :: rest =>
            show ResInv s (markDeps (f + 1) s (dep :: rest) m rem)
            rw [markDeps]
            split
            next hlt => exact ihMarkDeps s rest m (rem ++ [dep])
            next hlt =>
              split
              next m₁ s₁ h₁ =>
                intro s' hst
                exact ((ihMark s dep.target m).okCaseSys h₁).transSys
                  ((ihMarkDeps s₁ rest m₁ rem) s' hst)
              next s₁ h₁ => exact resInv_exn ((ihMark s dep.target m).exnCaseSys h₁)
              next h₁ => exact resInv_oot
      exact ⟨hEval, hGet, hSweep, hCompute, hExec, hDs, hCmd, hOOD, hMark, hMarkDeps⟩

theorem resInv_getValue (fuel : Nat) (s : State) (i : VarId) :
    ResInv s (getValue fuel s i) := (sysInv_main fuel).2.1 s i

theorem resInv_mark (fuel : Nat) (s : State) (i : VarId) (m : List VarId) :
    ResInv s (mark fuel s i m) := (sysInv_main fuel).2.2.2.2.2.2.2.2.1 s i m

theorem resInv_computeFormula (fuel : Nat) (s : State) (i : VarId) :
    ResInv s (computeFormula fuel s i) := (sysInv_main fuel).2.2.2.1 s i

theorem resInv_executeDaemons (fuel : Nat) (s : State) :
    ResInv s (executeDaemons fuel s) := (sysInv_main fuel).2.2.2.2.1 s

theorem sysInv_clearToValue (s : State) (i : VarId) (v : Int) :
    SysInv s (clearToValue s i v) :=
  SysInv.ofSetVar (Nat.le.refl) (fun h => depsNodup_getVar h i)

theorem sysInv_seedValue (s : State) (i : VarId) (v : Int) :
    SysInv s (seedValue s i v) :=
  SysInv.ofSetVar (Nat.le.refl) (fun h => depsNodup_getVar h i)

theorem sysInv_installFormula (s : State) (i : VarId) (e : Expr) :
    SysInv s (installFormula s i e) :=
  SysInv.ofSetVar (Nat.le.refl) (fun h => depsNodup_getVar h i)

theorem sysInv_clearStale (s : State) (i : VarId) : SysInv s (clearStale s i) :=
  SysInv.ofSetVar (Nat.le.refl) (fun h => depsNodup_getVar h i)

theorem resInv_setValue (fuel : Nat) (s : State) (i : VarId) (v : Int) :
    ResInv s (setValue fuel s i v) := by
  unfold setValue
  split
  next u s₂ h₂ =>
    exact resInv_ok (((sysInv_clearToValue s i v).transSys
      ((resInv_mark fuel _ i []).okCaseSys h₂)).transSys (sysInv_clearStale s₂ i))
  next s₂ h₂ =>
    exact resInv_exn ((sysInv_clearToValue s i v).transSys
      ((resInv_mark fuel _ i []).exnCaseSys h₂))
  next h₂ => exact resInv_oot

theorem resInv_setFormulaValue (fuel : Nat) (s : State) (i : VarId) (v : Int) :
    ResInv s (setFormulaValue fuel s i v) := by
  unfold setFormulaValue
  split
  next u s₂ h₂ =>
    exact resInv_ok (((sysInv_seedValue s i v).transSys
      ((resInv_mark fuel _ i []).okCaseSys h₂)).transSys (sysInv_clearStale s₂ i))
  next s₂ h₂ =>
    exact resInv_exn ((sysInv_seedValue s i v).transSys
      ((resInv_mark fuel _ i []).exnCaseSys h₂))
  next h₂ => exact resInv_oot

theorem resInv_setFormula (fuel : Nat) (s : State) (i : VarId) (e : Expr) :
    ResInv s (setFormula fuel s i e) := by
  unfold setFormula
  split
  next u s₂ h₂ =>
    exact resInv_ok ((sysInv_installFormula s i e).transSys
      ((resInv_mark fuel _ i []).okCaseSys h₂))
  next s₂ h₂ =>
    exact resInv_exn ((sysInv_installFormula s i e).transSys
      ((resInv_mark fuel _ i []).exnCaseSys h₂))
  next h₂ => exact resInv_oot

theorem resInv_runOp (fuel : Nat) (s : State) (op : Op) :
    ResInv s (runOp fuel s op) := by
  match op with
  | .read i =>
      show ResInv s (runOp fuel s (.read i))
      rw [runOp]
      split
      next v s₁ h₁ => exact resInv_ok ((resInv_getValue fuel s i).okCaseSys h₁)
      next s₁ h₁ => exact resInv_exn ((resInv_getValue fuel s i).exnCaseSys h₁)
      next h₁ => exact resInv_oot
  | .write i v => exact resInv_setValue fuel s i v
  | .writeFormulaValue i v => exact resInv_setFormulaValue fuel s i v
  | .writeFormula i e => exact resInv_setFormula fuel s i e
  | .peekOp i => exact resInv_ok (SysInv.selfSys s)
  | .register d => exact resInv_ok (SysInv.ofSystem rfl rfl ⟨[d], rfl⟩)
  | .setDaemon i d =>
      exact resInv_ok (SysInv.ofSetVar (Nat.le.refl) (fun h => depsNodup_getVar h i))
  | .setThis i t =>
      exact resInv_ok (SysInv.ofSetVar (Nat.le.refl) (fun h => depsNodup_getVar h i))

theorem resInv_runOps (fuel : Nat) :
    ∀ (ops : List Op) (s : State), ResInv s (runOps fuel s ops) := by
  intro ops
  induction ops with
  | nil => intro s; exact resInv_ok (SysInv.selfSys s)
  | cons op rest ih =>
      intro s
      show ResInv s (runOps fuel s (op :: rest))
      rw [runOps]
      split
      next u s₁ h₁ =>
        intro s' h
        exact ((resInv_runOp fuel s op).okCaseSys h₁).transSys ((ih s₁) s' h)
      next s₁ h₁ => exact resInv_exn ((resInv_runOp fuel s op).exnCaseSys h₁)
      next h₁ => exact resInv_oot

theorem getVar_setVar (s : State) (i j : VarId) (v : VarState) :
    getVar (setVar s i v) j = if j = i ∧ i < s.vars.length then v else getVar s j := by
  by_cases hj : j = i
  · subst hj
    by_cases hi : j < s.vars.length
    · rw [getVar_setVar_self s j v hi]; simp [hi]
    · rw [setVar_of_length_le s j v (Nat.le_of_not_lt hi)]; simp [hi]
  · rw [getVar_setVar_ne s v (fun h => hj h.symm)]; simp [hj]

/-- Relational lifting of a binary state property to interpreter results. -/
def ResRel (R : State → State → Prop) (s : State) (r : Res α) : Prop :=
  ∀ s', r.state? = some s' → R s s'

theorem resRel_ok {R : State → State → Prop} {s s' : State} {a : α} (h : R s s') :
    ResRel R s (Res.ok a s') := by
  intro t ht
  cases ht
  exact h

theorem resRel_exn {R : State → State → Prop} {s s' : State} (h : R s s') :
    ResRel R s (Res.exn (α := α) s') := by
  intro t ht
  cases ht
  exact h

theorem resRel_oot {R : State → State → Prop} {s : State} :
    ResRel R s (Res.oot (α := α)) := by
  intro t ht
  cases ht

theorem ResRel.okCaseRel {R : State → State → Prop} {s : State} {r : Res α}
    (h : ResRel R s r) {a : α} {s' : State} (he : r = .ok a s') : R s s' :=
  h s' (by rw [he]; rfl)

theorem ResRel.exnCaseRel {R : State → State → Prop} {s : State} {r : Res α}
    (h : ResRel R s r) {s' : State} (he : r = .exn s') : R s s' :=
  h s' (by rw [he]; rfl)

/-- Read-path preservation: a variable that is up to date when a read begins
is untouched by it — its stale flag stays false and its generation is
unchanged (no `mark` is reachable from the `value` getter, and
`computeFormula` recomputes only variables that were stale at its entry). -/
def ReadPres (s s' : State) : Prop :=
  ∀ j, (getVar s j).outOfDate = false →
    (getVar s' j).outOfDate = false ∧ (getVar s' j).tick = (getVar s j).tick

theorem ReadPres.selfRead (s : State) : ReadPres s s := fun _ h => ⟨h, rfl⟩

theorem ReadPres.transRead {s₁ s₂ s₃ : State} (a : ReadPres s₁ s₂) (b : ReadPres s₂ s₃) :
    ReadPres s₁ s₃ := by
  intro j h
  obtain ⟨h₂, ht₂⟩ := a j h
  obtain ⟨h₃, ht₃⟩ := b j h₂
  exact ⟨h₃, ht₃.trans ht₂⟩

theorem ReadPres.ofVarsEq {s s' : State} (hv : s'.vars = s.vars) : ReadPres s s' := by
  intro j h
  rw [getVar_congr hv]
  exact ⟨h, rfl⟩

/-- The dependency-recording step touches only `dependents` lists. -/
theorem readPres_updateDependencies (s : State) (i : VarId) :
    ReadPres s (updateDependencies s i) := by
  intro j h
  unfold updateDependencies
  cases hl : s.demandingVariables.getLast? with
  | none => exact ⟨h, rfl⟩
  | some d =>
      simp only
      cases hf : (getVar s i).dependents.find? (fun dep => dep.target == d) with
      | none =>
          rw [getVar_setVar]
          split
          next hc => rw [hc.1] at h ⊢; exact ⟨h, rfl⟩
          next hc => exact ⟨h, rfl⟩
      | some dep =>
          rw [getVar_setVar]
          split
          next hc => rw [hc.1] at h ⊢; exact ⟨h, rfl⟩
          next hc => exact ⟨h, rfl⟩

/-- Master read-path lemma: every function reachable from the `value` getter
preserves `ReadPres`. -/
theorem readPres_main : ∀ fuel : Nat,
    (∀ s e, ResRel ReadPres s (evalExpr fuel s e)) ∧
    (∀ s i, ResRel ReadPres s (getValue fuel s i)) ∧
    (∀ s i, ResRel ReadPres s (sweep fuel s i)) ∧
    (∀ s i, ResRel ReadPres s (computeFormula fuel s i)) ∧
    (∀ s, ResRel ReadPres s (executeDaemons fuel s)) ∧
    (∀ s ds, ResRel ReadPres s (runDaemons fuel s ds)) ∧
    (∀ s c, ResRel ReadPres s (runCmd fuel s c)) := by
  intro fuel
  induction fuel with
  | zero =>
      refine ⟨?_, ?_, ?_, ?_, ?_, ?_, ?_⟩ <;> intros <;> exact resRel_oot
  | succ f ih =>
      obtain ⟨ihEval, ihGet, ihSweep, ihCompute, ihExec, ihDs, ihCmd⟩ := ih
      have hEval : ∀ s e, ResRel ReadPres s (evalExpr (f + 1) s e) := by
        intro s e
        match e with
        | .const v => exact resRel_ok (ReadPres.selfRead s)
        | .readVar i => exact ihGet s i
        | .add a b =>
            show ResRel ReadPres s (evalExpr (f + 1) s (.add a b))
            rw [evalExpr]
            split
            next va s₁ h₁ =>
              split
              next vb s₂ h₂ =>
                exact resRel_ok (((ihEval s a).okCaseRel h₁).transRead ((ihEval s₁ b).okCaseRel h₂))
              next s₂ h₂ =>
                exact resRel_exn (((ihEval s a).okCaseRel h₁).transRead ((ihEval s₁ b).exnCaseRel h₂))
              next h₂ => exact resRel_oot
            next s₁ h₁ => exact resRel_exn ((ihEval s a).exnCaseRel h₁)
            next h₁ => exact resRel_oot
        | .mul a b =>
            show ResRel ReadPres s (evalExpr (f + 1) s (.mul a b))
            rw [evalExpr]
            split
            next va s₁ h₁ =>
              split
              next vb s₂ h₂ =>
                exact resRel_ok (((ihEval s a).okCaseRel h₁).transRead ((ihEval s₁ b).okCaseRel h₂))
              next s₂ h₂ =>
                exact resRel_exn (((ihEval s a).okCaseRel h₁).transRead ((ihEval s₁ b).exnCaseRel h₂))
              next h₂ => exact resRel_oot
            next s₁ h₁ => exact resRel_exn ((ihEval s a).exnCaseRel h₁)
            next h₁ => exact resRel_oot
        | .throwErr => exact resRel_exn (ReadPres.selfRead s)
      have hCompute : ∀ s i, ResRel ReadPres s (computeFormula (f + 1) s i) := by
        intro s i
        rw [computeFormula]
        split
        next hod =>
          have hA : ReadPres s (pushClear s i) := by
            intro j h
            have hji : j ≠ i := fun he => by rw [he, hod] at h; cases h
            unfold pushClear
            have : getVar { setVar s i { getVar s i with outOfDate := false } with
                demandingVariables := s.demandingVariables ++ [i] } j =
                getVar (setVar s i { getVar s i with outOfDate := false }) j := rfl
            rw [this, getVar_setVar]
            split
            next hc => exact absurd hc.1 hji
            next hc => exact ⟨h, rfl⟩
          split
          next hf => exact resRel_exn hA
          next e hf =>
            split
            next val s₂ h₂ =>
              have hB : ReadPres s s₂ := hA.transRead ((ihEval _ e).okCaseRel h₂)
              refine resRel_ok ?_
              intro j h
              have hji : j ≠ i := fun he => by rw [he, hod] at h; cases h
              have : getVar (popDemand (storeResult s₂ i val)) j =
                  getVar (storeResult s₂ i val) j := rfl
              rw [this]
              unfold storeResult
              rw [getVar_setVar]
              split
              next hc => exact absurd hc.1 hji
              next hc => exact hB j h
            next s₂ h₂ => exact resRel_exn (hA.transRead ((ihEval _ e).exnCaseRel h₂))
            next h₂ => exact resRel_oot
        next hod => exact resRel_ok (ReadPres.selfRead s)
      have hSweep : ∀ s i, ResRel ReadPres s (sweep (f + 1) s i) := by
        intro s i
        rw [sweep]
        intro s' h
        exact (readPres_updateDependencies s i).transRead
          ((ihCompute (updateDependencies s i) i) s' h)
      have hExec : ∀ s, ResRel ReadPres s (executeDaemons (f + 1) s) := by
        intro s
        rw [executeDaemons]
        split
        next hg =>
          have hA : ReadPres s (takeQueue s) := ReadPres.ofVarsEq rfl
          split
          next u s₂ h₂ =>
            have hB : ReadPres s s₂ := hA.transRead ((ihDs (takeQueue s) s.daemonQueue).okCaseRel h₂)
            exact resRel_ok (hB.transRead (ReadPres.ofVarsEq rfl))
          next s₂ h₂ =>
            exact resRel_exn (hA.transRead ((ihDs (takeQueue s) s.daemonQueue).exnCaseRel h₂))
          next h₂ => exact resRel_oot
        next hg => exact resRel_ok (ReadPres.selfRead s)
      have hGet : ∀ s i, ResRel ReadPres s (getValue (f + 1) s i) := by
        intro s i
        rw [getValue]
        split
        next u s₁ h₁ =>
          split
          next u₂ s₂ h₂ =>
            exact resRel_ok (((ihExec s).okCaseRel h₁).transRead ((ihSweep s₁ i).okCaseRel h₂))
          next s₂ h₂ =>
            exact resRel_exn (((ihExec s).okCaseRel h₁).transRead ((ihSweep s₁ i).exnCaseRel h₂))
          next h₂ => exact resRel_oot
        next s₁ h₁ => exact resRel_exn ((ihExec s).exnCaseRel h₁)
        next h₁ => exact resRel_oot
      have hCmd : ∀ s c, ResRel ReadPres s (runCmd (f + 1) s c) := by
        intro s c
        match c with
        | .skip => exact resRel_ok (ReadPres.selfRead s)
        | .incr cn => exact resRel_ok (ReadPres.ofVarsEq rfl)
        | .logVal v => exact resRel_ok (ReadPres.ofVarsEq rfl)
        | .readVar i =>
            show ResRel ReadPres s (runCmd (f + 1) s (.readVar i))
            rw [runCmd]
            split
            next v s₁ h₁ => exact resRel_ok ((ihGet s i).okCaseRel h₁)
            next s₁ h₁ => exact resRel_exn ((ihGet s i).exnCaseRel h₁)
            next h₁ => exact resRel_oot
        | .addDaemon d => exact resRel_ok (ReadPres.ofVarsEq rfl)
        | .seq a b =>
            show ResRel ReadPres s (runCmd (f + 1) s (.seq a b))
            rw [runCmd]
            split
            next u s₁ h₁ =>
              intro s' h
              exact ((ihCmd s a).okCaseRel h₁).transRead ((ihCmd s₁ b) s' h)
            next s₁ h₁ => exact resRel_exn ((ihCmd s a).exnCaseRel h₁)
            next h₁ => exact resRel_oot
        | .throwErr => exact resRel_exn (ReadPres.selfRead s)
      have hDs : ∀ s ds, ResRel ReadPres s (runDaemons (f + 1) s ds) := by
        intro s ds
        match ds with
        | [] => exact resRel_ok (ReadPres.selfRead s)
        | d :: rest =>
            show ResRel ReadPres s (runDaemons (f + 1) s (d :: rest))
            rw [runDaemons]
            split
            next u s₁ h₁ =>
              intro s' h
              exact ((ihCmd s d).okCaseRel h₁).transRead ((ihDs s₁ rest) s' h)
            next s₁ h₁ => exact resRel_exn ((ihCmd s d).exnCaseRel h₁)
            next h₁ => exact resRel_oot
      exact ⟨hEval, hGet, hSweep, hCompute, hExec, hDs, hCmd⟩

theorem getVar_pushClear_self (s : State) (i : VarId) (hi : i < s.vars.length) :
    getVar (pushClear s i) i = { getVar s i with outOfDate := false } := by
  have : getVar (pushClear s i) i =
      getVar (setVar s i { getVar s i with outOfDate := false }) i := rfl
  rw [this, getVar_setVar_self s i _ hi]

/-- `computeFormula` on a stale variable that completes normally bumps that
variable's generation by exactly one: the `tick++` of the source, plus the
fact that the formula's own evaluation cannot recompute the variable again
(its stale flag was cleared first, and nothing on the read path re-marks). -/
theorem computeFormula_tick_succ (fuel : Nat) (s : State) (i : VarId)
    (hod : (getVar s i).outOfDate = true)
    (hok : (computeFormula fuel s i).isOk = true) :
    (getVar (resState (computeFormula fuel s i) s) i).tick = (getVar s i).tick + 1 := by
  match fuel with
  | 0 => exact absurd hok (by simp [computeFormula, Res.isOk])
  | f + 1 =>
      rw [computeFormula] at hok ⊢
      rw [if_pos hod] at hok ⊢
      have hi : i < s.vars.length := lt_length_of_outOfDate hod
      cases hf : (getVar (pushClear s i) i).formula with
      | none => simp [hf, Res.isOk] at hok
      | some e =>
          cases h₂ : evalExpr f (pushClear s i) e with
          | oot => simp [hf, h₂, Res.isOk] at hok
          | exn s₂ => simp [hf, h₂, Res.isOk] at hok
          | ok val s₂ =>
              simp only [hf, h₂, resState]
              have hlen : s₂.vars.length = s.vars.length := by
                have h := (((sysInv_main f).1 (pushClear s i) e).okCaseSys h₂).len
                have h' : (pushClear s i).vars.length = s.vars.length := by
                  show (setVar s i { getVar s i with outOfDate := false }).vars.length =
                    s.vars.length
                  exact vars_length_setVar s i _
                rw [h, h']
              have htick : (getVar s₂ i).tick = (getVar s i).tick := by
                have hp : (getVar (pushClear s i) i).outOfDate = false := by
                  rw [getVar_pushClear_self s i hi]
                have hrp := (((readPres_main f).1 (pushClear s i) e).okCaseRel h₂) i hp
                rw [hrp.2, getVar_pushClear_self s i hi]
              have : getVar (popDemand (storeResult s₂ i val)) i =
                  getVar (storeResult s₂ i val) i := rfl
              rw [this]
              unfold storeResult
              rw [getVar_setVar_self s₂ i _ (by rw [hlen]; exact hi), htick]

/-! ### Mark-phase analysis under counter daemons

The spec's guarantees about the mark phase (daemons fire exactly once per
pass, ticks and values untouched, …) concern daemons of the `n++` kind that
appear throughout the repository's tests: side-effect-only thunks that do not
read or write any Variable.  `counterLike` captures that class. -/

def counterLike : Cmd → Bool
  | .skip => true
  | .incr _ => true
  | .seq a b => counterLike a && counterLike b
  | _ => false

/-- Every installed out-of-date daemon is a pure counter command. -/
def CounterOnly (s : State) : Prop :=
  ∀ k d, (getVar s k).outOfDateDaemon = some d → counterLike d = true

/-- Executable check for `CounterOnly`. -/
def allCounterDaemons (s : State) : Bool :=
  s.vars.all fun v =>
    match v.outOfDateDaemon with
    | none => true
    | some d => counterLike d

theorem counterOnly_of_all {s : State} (h : allCounterDaemons s = true) :
    CounterOnly s := by
  intro k d hd
  by_cases hk : k < s.vars.length
  · have hmem := getVar_mem (s := s) hk
    have := List.all_eq_true.mp h _ hmem
    rw [hd] at this
    exact this
  · rw [getVar_of_length_le s k (Nat.le_of_not_lt hk)] at hd
    simp [defaultVar] at hd

/-- Each variable's daemon, when present, is exactly `incr` of its own
counter cell (the per-variable `n++` closures of the spec's scenarios, with
one distinct cell per variable). -/
def OwnCounters (s : State) : Prop :=
  ∀ k, (getVar s k).outOfDateDaemon = none ∨
    (getVar s k).outOfDateDaemon = some (.incr k)

def ownCounterFrom : Nat → List VarState → Bool
  | _, [] => true
  | i, v :: rest =>
      (match v.outOfDateDaemon with
       | none => true
       | some d => d == Cmd.incr i) && ownCounterFrom (i + 1) rest

/-- Executable check for `OwnCounters`. -/
def ownCounterDaemons (s : State) : Bool := ownCounterFrom 0 s.vars

theorem ownCounterFrom_spec :
    ∀ (l : List VarState) (n : Nat), ownCounterFrom n l = true →
      ∀ k, (l.getD k defaultVar).outOfDateDaemon = none ∨
        (l.getD k defaultVar).outOfDateDaemon = some (.incr (n + k)) := by
  intro l
  induction l with
  | nil =>
      intro n _ k
      left
      cases k <;> simp [List.getD, defaultVar]
  | cons v rest ih =>
      intro n h k
      have h' := (Bool.and_eq_true _ _).mp h
      cases k with
      | zero =>
          cases hd : v.outOfDateDaemon with
          | none => left; simpa [List.getD] using hd
          | some d =>
              right
              have h1 := h'.1
              rw [hd] at h1
              have : d = Cmd.incr n := by
                have := (beq_iff_eq (a := d) (b := Cmd.incr n)).mp h1
                exact this
              simp [List.getD, hd, this]
      | succ k' =>
          have := ih (n + 1) h'.2 k'
          have harith : n + 1 + k' = n + (k' + 1) := by omega
          rw [harith] at this
          simpa [List.getD] using this

theorem ownCounters_of_check {s : State} (h : ownCounterDaemons s = true) :
    OwnCounters s := by
  intro k
  have := ownCounterFrom_spec s.vars 0 h k
  simpa [getVar] using this

theorem ownCounters_counterOnly {s : State} (h : OwnCounters s) : CounterOnly s := by
  intro k d hd
  rcases h k with h1 | h1
  · rw [h1] at hd; cases hd
  · rw [h1] at hd
    cases hd
    rfl

/-- What one mark pass may and may not do, between its entry state and any
state its result carries, provided all installed daemons are counter
commands: the staleness flags only ever go from fresh to stale, every other
per-variable field and every system field except the counters is untouched,
and — when daemons are the per-variable `incr` cells — the counter of a
variable is bumped exactly once exactly when that variable's flag flips. -/
structure MarkInv (s s' : State) : Prop where
  len : s'.vars.length = s.vars.length
  staleMono : ∀ j, (getVar s j).outOfDate = true → (getVar s' j).outOfDate = true
  tickEq : ∀ j, (getVar s' j).tick = (getVar s j).tick
  valueEq : ∀ j, (getVar s' j).value = (getVar s j).value
  formulaEq : ∀ j, (getVar s' j).formula = (getVar s j).formula
  daemonEq : ∀ j, (getVar s' j).outOfDateDaemon = (getVar s j).outOfDateDaemon
  thisEq : ∀ j, (getVar s' j).thisFormula = (getVar s j).thisFormula
  demandEq : s'.demandingVariables = s.demandingVariables
  queueEq : s'.daemonQueue = s.daemonQueue
  execEq : s'.executingDaemons = s.executingDaemons
  logEq : s'.log = s.log
  ctrSpec : OwnCounters s → ∀ j, (getVar s j).outOfDateDaemon = some (.incr j) →
    ctr s' j = ctr s j +
      (if (getVar s j).outOfDate = false ∧ (getVar s' j).outOfDate = true then 1 else 0)

theorem MarkInv.selfMark (s : State) : MarkInv s s :=
  ⟨rfl, fun _ h => h, fun _ => rfl, fun _ => rfl, fun _ => rfl, fun _ => rfl,
   fun _ => rfl, rfl, rfl, rfl, rfl, by intro _ j _; simp⟩

theorem MarkInv.ownPres {s s' : State} (m : MarkInv s s') (h : OwnCounters s) :
    OwnCounters s' := by
  intro k
  rw [m.daemonEq k]
  exact h k

theorem MarkInv.transMark {s₁ s₂ s₃ : State} (a : MarkInv s₁ s₂) (b : MarkInv s₂ s₃) :
    MarkInv s₁ s₃ := by
  refine ⟨b.len.trans a.len, fun j h => b.staleMono j (a.staleMono j h),
    fun j => (b.tickEq j).trans (a.tickEq j),
    fun j => (b.valueEq j).trans (a.valueEq j),
    fun j => (b.formulaEq j).trans (a.formulaEq j),
    fun j => (b.daemonEq j).trans (a.daemonEq j),
    fun j => (b.thisEq j).trans (a.thisEq j),
    b.demandEq.trans a.demandEq, b.queueEq.trans a.queueEq,
    b.execEq.trans a.execEq, b.logEq.trans a.logEq, ?_⟩
  intro hown j hj
  have hj₂ : (getVar s₂ j).outOfDateDaemon = some (.incr j) := by
    rw [a.daemonEq j]; exact hj
  have h1 := a.ctrSpec hown j hj
  have h2 := b.ctrSpec (a.ownPres hown) j hj₂
  rw [h2, h1]
  by_cases c1 : (getVar s₁ j).outOfDate = false
  · by_cases c2 : (getVar s₂ j).outOfDate = true
    · have c3 : (getVar s₃ j).outOfDate = true := b.staleMono j c2
      simp [c1, c2, c3]
    · have c2' : (getVar s₂ j).outOfDate = false := by
        cases h : (getVar s₂ j).outOfDate
        · rfl
        · exact absurd h c2
      simp [c1, c2']
  · have c1' : (getVar s₁ j).outOfDate = true := by
      cases h : (getVar s₁ j).outOfDate
      · exact absurd h c1
      · rfl
    have c2 : (getVar s₂ j).outOfDate = true := a.staleMono j c1'
    have c3 : (getVar s₃ j).outOfDate = true := b.staleMono j c2
    simp [c1', c2, c3]

/-- Replacing only a variable's `dependents` list satisfies the mark
invariant (flags, ticks, counters all untouched). -/
theorem MarkInv.ofDepsSet (s : State) (i : VarId) (X : List Dependency) :
    MarkInv s (setVar s i { getVar s i with dependents := X }) := by
  have hfield : ∀ j, getVar (setVar s i { getVar s i with dependents := X }) j =
      getVar s j ∨ getVar (setVar s i { getVar s i with dependents := X }) j =
      { getVar s j with dependents := X } := by
    intro j
    rw [getVar_setVar]
    split
    next hc => right; rw [hc.1]
    next hc => left; rfl
  refine ⟨vars_length_setVar s i _, ?_, ?_, ?_, ?_, ?_, ?_, rfl, rfl, rfl, rfl, ?_⟩
  · intro j h; rcases hfield j with he | he <;> rw [he] <;> exact h
  · intro j; rcases hfield j with he | he <;> rw [he]
  · intro j; rcases hfield j with he | he <;> rw [he]
  · intro j; rcases hfield j with he | he <;> rw [he]
  · intro j; rcases hfield j with he | he <;> rw [he]
  · intro j; rcases hfield j with he | he <;> rw [he]
  · intro hown j hj
    have hflag : (getVar (setVar s i { getVar s i with dependents := X }) j).outOfDate =
        (getVar s j).outOfDate := by
      rcases hfield j with he | he <;> rw [he]
    have hctr : ctr (setVar s i { getVar s i with dependents := X }) j = ctr s j := rfl
    rw [hctr, hflag]
    cases hb : (getVar s j).outOfDate <;> simp [hb]

theorem markInv_removeDeps (i : VarId) :
    ∀ (rem : List Dependency) (s : State), MarkInv s (removeDeps s i rem) := by
  intro rem
  induction rem with
  | nil => intro s; exact MarkInv.selfMark s
  | cons dep rest ih =>
      intro s
      have hstep := MarkInv.ofDepsSet s i (removeFirst dep (getVar s i).dependents)
      have : removeDeps s i (dep :: rest) =
          removeDeps (setVar s i
            { getVar s i with dependents := removeFirst dep (getVar s i).dependents }) i rest := rfl
      rw [this]
      exact hstep.transMark (ih _)

/-- What a pure counter command can touch: nothing but the counters. -/
def CmdOnlyCtrs (s s' : State) : Prop :=
  s'.vars = s.vars ∧ s'.demandingVariables = s.demandingVariables ∧
  s'.daemonQueue = s.daemonQueue ∧ s'.executingDaemons = s.executingDaemons ∧
  s'.log = s.log

theorem CmdOnlyCtrs.selfCmd (s : State) : CmdOnlyCtrs s s := ⟨rfl, rfl, rfl, rfl, rfl⟩

theorem CmdOnlyCtrs.transCmd {s₁ s₂ s₃ : State} (a : CmdOnlyCtrs s₁ s₂)
    (b : CmdOnlyCtrs s₂ s₃) : CmdOnlyCtrs s₁ s₃ :=
  ⟨b.1.trans a.1, b.2.1.trans a.2.1, b.2.2.1.trans a.2.2.1,
   b.2.2.2.1.trans a.2.2.2.1, b.2.2.2.2.trans a.2.2.2.2⟩

theorem runCmd_counterLike : ∀ (c : Cmd), counterLike c = true →
    ∀ (fuel : Nat) (s : State), ResRel CmdOnlyCtrs s (runCmd fuel s c) := by
  intro c
  induction c with
  | skip =>
      intro _ fuel s
      match fuel with
      | 0 => exact resRel_oot
      | f + 1 => exact resRel_ok (CmdOnlyCtrs.selfCmd s)
  | incr n =>
      intro _ fuel s
      match fuel with
      | 0 => exact resRel_oot
      | f + 1 => exact resRel_ok ⟨rfl, rfl, rfl, rfl, rfl⟩
  | logVal v => intro h; simp [counterLike] at h
  | readVar i => intro h; simp [counterLike] at h
  | addDaemon d _ => intro h; simp [counterLike] at h
  | seq a b iha ihb =>
      intro h fuel s
      have hab := (Bool.and_eq_true _ _).mp (by simpa [counterLike] using h)
      match fuel with
      | 0 => exact resRel_oot
      | f + 1 =>
          show ResRel CmdOnlyCtrs s (runCmd (f + 1) s (.seq a b))
          rw [runCmd]
          split
          next u s₁ h₁ =>
            intro s' hst
            exact ((iha hab.1 f s).okCaseRel h₁).transCmd ((ihb hab.2 f s₁) s' hst)
          next s₁ h₁ => exact resRel_exn ((iha hab.1 f s).exnCaseRel h₁)
          next h₁ => exact resRel_oot
  | throwErr => intro h; simp [counterLike] at h

theorem runCmd_counterLike_no_exn : ∀ (c : Cmd), counterLike c = true →
    ∀ (fuel : Nat) (s s' : State), runCmd fuel s c ≠ .exn s' := by
  intro c
  induction c with
  | skip =>
      intro _ fuel s s' h
      match fuel with
      | 0 => cases h
      | f + 1 => cases h
  | incr n =>
      intro _ fuel s s' h
      match fuel with
      | 0 => cases h
      | f + 1 => cases h
  | logVal v => intro h; simp [counterLike] at h
  | readVar i => intro h; simp [counterLike] at h
  | addDaemon d _ => intro h; simp [counterLike] at h
  | seq a b iha ihb =>
      intro h fuel s s' hx
      have hab := (Bool.and_eq_true _ _).mp (by simpa [counterLike] using h)
      match fuel with
      | 0 => cases hx
      | f + 1 =>
          rw [runCmd] at hx
          revert hx
          split
          next u s₁ h₁ => intro hx; exact ihb hab.2 f s₁ s' hx
          next s₁ h₁ => intro hx; cases hx; exact iha hab.1 f s s' h₁
          next h₁ => intro hx; cases hx
  | throwErr => intro h; simp [counterLike] at h

theorem lt_length_of_daemon {s : State} {i : VarId} {d : Cmd}
    (h : (getVar s i).outOfDateDaemon = some d) : i < s.vars.length := by
  by_contra hn
  rw [getVar_of_length_le s i (Nat.le_of_not_lt hn)] at h
  simp [defaultVar] at h

theorem getVar_markStale (s : State) (i j : VarId) :
    getVar (markStale s i) j =
      if j = i ∧ i < s.vars.length then { getVar s i with outOfDate := true }
      else getVar s j := by
  unfold markStale
  rw [getVar_setVar]

/-- If the daemon of `i` is its own counter cell (or absent), running it from
the post-`markStale` state either leaves the state alone or bumps exactly
that cell. -/
theorem execOOD_own_ok {fuel : Nat} {s₁ : State} {i : VarId} {u : Unit} {s₂ : State}
    (hd : (getVar s₁ i).outOfDateDaemon = none ∨
      (getVar s₁ i).outOfDateDaemon = some (.incr i))
    (h : execOODDaemon fuel s₁ i = .ok u s₂) :
    ((getVar s₁ i).outOfDateDaemon = none ∧ s₂ = s₁) ∨
    ((getVar s₁ i).outOfDateDaemon = some (.incr i) ∧ s₂ = bumpCtr s₁ i) := by
  match fuel with
  | 0 => cases h
  | f + 1 =>
      rw [execOODDaemon] at h
      rcases hd with hd | hd
      · rw [hd] at h
        cases h
        exact Or.inl ⟨hd, rfl⟩
      · rw [hd] at h
        match f, h with
        | f' + 1, h =>
            cases h
            exact Or.inr ⟨hd, rfl⟩

/-- The composite "set the stale flag, then fire the daemon" step of `mark`,
seen from the pre-mark state, satisfies the mark invariant. -/
theorem markInv_stale_step {fuel : Nat} {s : State} {i : VarId} {u : Unit} {s₂ : State}
    (hcnt : CounterOnly s) (hod : (getVar s i).outOfDate = false)
    (h₂ : execOODDaemon fuel (markStale s i) i = .ok u s₂) : MarkInv s s₂ := by
  have hdm : ∀ j, (getVar (markStale s i) j).outOfDateDaemon =
      (getVar s j).outOfDateDaemon := by
    intro j
    rw [getVar_markStale]
    split
    next hc => rw [hc.1]
    next hc => rfl
  have hcnt₁ : CounterOnly (markStale s i) := by
    intro k d hk
    exact hcnt k d ((hdm k) ▸ hk)
  have hC : CmdOnlyCtrs (markStale s i) s₂ := by
    have : ResRel CmdOnlyCtrs (markStale s i) (execOODDaemon fuel (markStale s i) i) := by
      match fuel with
      | 0 => exact resRel_oot
      | f + 1 =>
          rw [execOODDaemon]
          split
          next hdn => exact resRel_ok (CmdOnlyCtrs.selfCmd _)
          next d hdn => exact runCmd_counterLike d (hcnt₁ i d hdn) f (markStale s i)
    exact this.okCaseRel h₂
  have hgv : ∀ j, getVar s₂ j = getVar (markStale s i) j := fun j => getVar_congr hC.1 j
  refine ⟨?_, ?_, ?_, ?_, ?_, ?_, ?_, ?_, ?_, ?_, ?_, ?_⟩
  · rw [hC.1]
    show (markStale s i).vars.length = s.vars.length
    exact vars_length_setVar s i _
  · intro j hj
    rw [hgv j, getVar_markStale]
    split
    next hc => rfl
    next hc => exact hj
  · intro j
    rw [hgv j, getVar_markStale]
    split
    next hc => rw [hc.1]
    next hc => rfl
  · intro j
    rw [hgv j, getVar_markStale]
    split
    next hc => rw [hc.1]
    next hc => rfl
  · intro j
    rw [hgv j, getVar_markStale]
    split
    next hc => rw [hc.1]
    next hc => rfl
  · intro j
    rw [hgv j, getVar_markStale]
    split
    next hc => rw [hc.1]
    next hc => rfl
  · intro j
    rw [hgv j, getVar_markStale]
    split
    next hc => rw [hc.1]
    next hc => rfl
  · exact hC.2.1.trans rfl
  · exact hC.2.2.1.trans rfl
  · exact hC.2.2.2.1.trans rfl
  · exact hC.2.2.2.2.trans rfl
  · intro hown j hj
    have hdi : (getVar (markStale s i) i).outOfDateDaemon =
        (getVar s i).outOfDateDaemon := hdm i
    rcases execOOD_own_ok (by rw [hdi]; exact hown i) h₂ with ⟨hnone, he⟩ | ⟨hsome, he⟩
    · rw [hdi] at hnone
      have hji : j ≠ i := by
        intro hji
        rw [hji, hnone] at hj
        cases hj
      have hflag : (getVar s₂ j).outOfDate = (getVar s j).outOfDate := by
        rw [he, getVar_markStale]
        split
        next hc => exact absurd hc.1 hji
        next hc => rfl
      have hctr : ctr s₂ j = ctr s j := by rw [he]; rfl
      rw [hctr, hflag]
      cases hb : (getVar s j).outOfDate <;> simp [hb]
    · rw [hdi] at hsome
      have hi : i < s.vars.length := lt_length_of_daemon hsome
      by_cases hji : j = i
      · subst hji
        have hflag : (getVar s₂ j).outOfDate = true := by
          rw [he]
          have : getVar (bumpCtr (markStale s j) j) j = getVar (markStale s j) j := rfl
          rw [this, getVar_markStale]
          simp [hi]
        have hctr : ctr s₂ j = ctr s j + 1 := by
          rw [he]
          show ctr (bumpCtr (markStale s j) j) j = ctr s j + 1
          simp [bumpCtr, ctr, markStale, setVar]
        rw [hctr, hflag, hod]
        simp
      · have hflag : (getVar s₂ j).outOfDate = (getVar s j).outOfDate := by
          rw [he]
          have : getVar (bumpCtr (markStale s i) i) j = getVar (markStale s i) j := rfl
          rw [this, getVar_markStale]
          split
          next hc => exact absurd hc.1 hji
          next hc => rfl
        have hctr : ctr s₂ j = ctr s j := by
          rw [he]
          show ctr (bumpCtr (markStale s i) i) j = ctr s j
          simp [bumpCtr, ctr, markStale, setVar, hji]
        rw [hctr, hflag]
        cases hb : (getVar s j).outOfDate <;> simp [hb]

/-- Master mark-phase lemma: under counter daemons, `mark` and its dependents
loop satisfy the mark invariant, and return the marking list exactly as they
received it (everything pushed is popped — the source's transient list). -/
theorem markInv_main : ∀ fuel : Nat,
    (∀ s i m, CounterOnly s →
      ResRel MarkInv s (mark fuel s i m) ∧
      ∀ m' s', mark fuel s i m = .ok m' s' → m' = m) ∧
    (∀ s deps m rem, CounterOnly s →
      ResRel MarkInv s (markDeps fuel s deps m rem) ∧
      ∀ p s', markDeps fuel s deps m rem = .ok p s' → p.1 = m) := by
  intro fuel
  induction fuel with
  | zero =>
      constructor
      · intro s i m _
        exact ⟨resRel_oot, fun m' s' h => by cases h⟩
      · intro s deps m rem _
        exact ⟨resRel_oot, fun p s' h => by cases h⟩
  | succ f ih =>
      obtain ⟨ihMark, ihMarkDeps⟩ := ih
      have hcntPres : ∀ {s s' : State}, CounterOnly s → MarkInv s s' → CounterOnly s' := by
        intro s s' hc hm k d hk
        exact hc k d ((hm.daemonEq k) ▸ hk)
      have hMark : ∀ s i m, CounterOnly s →
          ResRel MarkInv s (mark (f + 1) s i m) ∧
          ∀ m' s', mark (f + 1) s i m = .ok m' s' → m' = m := by
        intro s i m hcnt
        rw [mark]
        split
        next hg =>
          have hod : (getVar s i).outOfDate = false := by
            have := (Bool.and_eq_true _ _).mp hg
            have h1 := this.1
            cases hb : (getVar s i).outOfDate
            · rfl
            · rw [hb] at h1; cases h1
          constructor
          · show ResRel MarkInv s
              (match execOODDaemon f (markStale s i) i with
                | .ok _ s₂ =>
                    match markDeps f s₂ (getVar s₂ i).dependents (m ++ [i]) [] with
                    | .ok (marked₂, removals) s₃ =>
                        .ok marked₂.dropLast (removeDeps s₃ i removals)
                    | .exn s₃ => .exn s₃
                    | .oot => .oot
                | .exn s₂ => .exn s₂
                | .oot => .oot)
            split
            next u s₂ h₂ =>
              have hcomp : MarkInv s s₂ := markInv_stale_step hcnt hod h₂
              have hcnt₂ : CounterOnly s₂ := hcntPres hcnt hcomp
              split
              next marked₂ removals s₃ h₃ =>
                exact resRel_ok ((hcomp.transMark
                  (((ihMarkDeps s₂ (getVar s₂ i).dependents (m ++ [i]) [] hcnt₂).1).okCaseRel
                    h₃)).transMark (markInv_removeDeps i removals s₃))
              next s₃ h₃ =>
                exact resRel_exn (hcomp.transMark
                  (((ihMarkDeps s₂ (getVar s₂ i).dependents (m ++ [i]) [] hcnt₂).1).exnCaseRel h₃))
              next h₃ => exact resRel_oot
            next s₂ h₂ =>
              exfalso
              have hdm : (getVar (markStale s i) i).outOfDateDaemon =
                  (getVar s i).outOfDateDaemon := by
                rw [getVar_markStale]
                split
                next hc => rw [hc.1]
                next hc => rfl
              match f, h₂ with
              | f' + 1, h₂ =>
                  rw [execOODDaemon] at h₂
                  revert h₂
                  split
                  next hdn => intro h₂; cases h₂
                  next d hdn =>
                    intro h₂
                    exact runCmd_counterLike_no_exn d
                      (hcnt i d (hdm ▸ hdn)) f' (markStale s i) s₂ h₂
            next h₂ => exact resRel_oot
          · intro m' s' hres
            revert hres
            split
            next u s₂ h₂ =>
              have hcomp : MarkInv s s₂ := markInv_stale_step hcnt hod h₂
              have hcnt₂ : CounterOnly s₂ := hcntPres hcnt hcomp
              split
              next marked₂ removals s₃ h₃ =>
                intro hres
                cases hres
                have := (ihMarkDeps s₂ (getVar s₂ i).dependents (m ++ [i]) [] hcnt₂).2 _ _ h₃
                rw [show ((marked₂, removals) : List VarId × List Dependency).1 = marked₂
                  from rfl] at this
                rw [this]
                exact List.dropLast_concat
              next s₃ h₃ => intro hres; cases hres
              next h₃ => intro hres; cases hres
            next s₂ h₂ => intro hres; cases hres
            next h₂ => intro hres; cases hres
        next hg =>
          exact ⟨resRel_ok (MarkInv.selfMark s), fun m' s' h => by cases h; rfl⟩
      have hMarkDeps : ∀ s deps m rem, CounterOnly s →
          ResRel MarkInv s (markDeps (f + 1) s deps m rem) ∧
          ∀ p s', markDeps (f + 1) s deps m rem = .ok p s' → p.1 = m := by
        intro s deps m rem hcnt
        match deps with
        | [] =>
            exact ⟨resRel_ok (MarkInv.selfMark s), fun p s' h => by cases h; rfl⟩
        | dep :: rest =>
            show ResRel MarkInv s (markDeps (f + 1) s (dep :: rest) m rem) ∧ _
            rw [markDeps]
            split
            next hlt => exact ihMarkDeps s rest m (rem ++ [dep]) hcnt
            next hlt =>
              constructor
              · show ResRel MarkInv s
                  (match mark f s dep.target m with
                    | .ok marked₁ s₁ => markDeps f s₁ rest marked₁ rem
                    | .exn s₁ => .exn s₁
                    | .oot => .oot)
                split
                next m₁ s₁ h₁ =>
                  intro s' hst
                  have hA : MarkInv s s₁ := ((ihMark s dep.target m hcnt).1).okCaseRel h₁
                  exact hA.transMark (((ihMarkDeps s₁ rest m₁ rem (hcntPres hcnt hA)).1) s' hst)
                next s₁ h₁ => exact resRel_exn (((ihMark s dep.target m hcnt).1).exnCaseRel h₁)
                next h₁ => exact resRel_oot
              · intro p s' hres
                revert hres
                split
                next m₁ s₁ h₁ =>
                  intro hres
                  have hA : MarkInv s s₁ := ((ihMark s dep.target m hcnt).1).okCaseRel h₁
                  have hm₁ : m₁ = m := (ihMark s dep.target m hcnt).2 _ _ h₁
                  have := (ihMarkDeps s₁ rest m₁ rem (hcntPres hcnt hA)).2 _ _ hres
                  rw [this, hm₁]
                next s₁ h₁ => intro hres; cases hres
                next h₁ => intro hres; cases hres
      exact ⟨hMark, hMarkDeps⟩

theorem execOOD_counterOnly (fuel : Nat) (s : State) (i : VarId) (h : CounterOnly s) :
    ResRel CmdOnlyCtrs s (execOODDaemon fuel s i) := by
  match fuel with
  | 0 => exact resRel_oot
  | f + 1 =>
      rw [execOODDaemon]
      split
      next hdn => exact resRel_ok (CmdOnlyCtrs.selfCmd _)
      next d hdn => exact runCmd_counterLike d (h i d hdn) f s

theorem getVar_clearToValue (s : State) (i j : VarId) (v : Int) :
    getVar (clearToValue s i v) j =
      if j = i ∧ i < s.vars.length then
        { getVar s i with value := v, formula := none, outOfDateDaemon := none }
      else getVar s j := by
  unfold clearToValue
  rw [getVar_setVar]

theorem getVar_seedValue (s : State) (i j : VarId) (v : Int) :
    getVar (seedValue s i v) j =
      if j = i ∧ i < s.vars.length then { getVar s i with value := v }
      else getVar s j := by
  unfold seedValue
  rw [getVar_setVar]

theorem getVar_installFormula (s : State) (i j : VarId) (e : Expr) :
    getVar (installFormula s i e) j =
      if j = i ∧ i < s.vars.length then { getVar s i with formula := some e }
      else getVar s j := by
  unfold installFormula
  rw [getVar_setVar]

theorem getVar_clearStale (s : State) (i j : VarId) :
    getVar (clearStale s i) j =
      if j = i ∧ i < s.vars.length then { getVar s i with outOfDate := false }
      else getVar s j := by
  unfold clearStale
  rw [getVar_setVar]

/-- A fresh, in-range variable not already on the marking list comes out of
`mark` stale (and stays stale through the rest of the pass). -/
theorem mark_sets_stale (fuel : Nat) (s : State) (i : VarId) (m : List VarId)
    (hcnt : CounterOnly s) (hi : i < s.vars.length)
    (hod : (getVar s i).outOfDate = false) (hm : m.contains i = false) :
    ∀ s', (mark fuel s i m).state? = some s' → (getVar s' i).outOfDate = true := by
  match fuel with
  | 0 => intro s' h; cases h
  | f + 1 =>
      rw [mark]
      rw [hod, hm]
      simp only [Bool.not_false, Bool.and_self, if_true]
      split
      next u s₂ h₂ =>
        have hC : CmdOnlyCtrs (markStale s i) s₂ := by
          have hcnt₁ : CounterOnly (markStale s i) := by
            intro k d hk
            refine hcnt k d ?_
            rw [getVar_markStale] at hk
            revert hk
            split
            next hc => intro hk; rw [hc.1]; exact hk
            next hc => intro hk; exact hk
          exact (execOOD_counterOnly f (markStale s i) i hcnt₁).okCaseRel h₂
        have hs₂ : (getVar s₂ i).outOfDate = true := by
          rw [getVar_congr hC.1, getVar_markStale]
          simp [hi]
        have hcnt₂ : CounterOnly s₂ := by
          intro k d hk
          refine hcnt k d ?_
          rw [getVar_congr hC.1, getVar_markStale] at hk
          revert hk
          split
          next hc => intro hk; rw [hc.1]; exact hk
          next hc => intro hk; exact hk
        split
        next marked₂ removals s₃ h₃ =>
          intro s' hres
          cases hres
          have hA : MarkInv s₂ s₃ :=
            (((markInv_main f).2 s₂ (getVar s₂ i).dependents (m ++ [i]) [] hcnt₂).1).okCaseRel h₃
          have hs₃ : (getVar s₃ i).outOfDate = true := hA.staleMono i hs₂
          exact (markInv_removeDeps i removals s₃).staleMono i hs₃
        next s₃ h₃ =>
          intro s' hres
          cases hres
          have hA : MarkInv s₂ s₃ :=
            (((markInv_main f).2 s₂ (getVar s₂ i).dependents (m ++ [i]) [] hcnt₂).1).exnCaseRel h₃
          exact hA.staleMono i hs₂
        next h₃ => intro s' hres; cases hres
      next s₂ h₂ =>
        intro s' hres
        cases hres
        have hC : CmdOnlyCtrs (markStale s i) s₂ := by
          have hcnt₁ : CounterOnly (markStale s i) := by
            intro k d hk
            refine hcnt k d ?_
            rw [getVar_markStale] at hk
            revert hk
            split
            next hc => intro hk; rw [hc.1]; exact hk
            next hc => intro hk; exact hk
          exact (execOOD_counterOnly f (markStale s i) i hcnt₁).exnCaseRel h₂
        rw [getVar_congr hC.1, getVar_markStale]
        simp [hi]
      next h₂ => intro s' hres; cases hres

/-- Every current-edged, fresh, in-range dependent in the iterated list is
stale when the dependents loop completes. -/
theorem markDeps_hits : ∀ (fuel : Nat) (deps : List Dependency) (s : State)
    (m : List VarId) (rem : List Dependency), CounterOnly s →
    ∀ dep ∈ deps, ¬(dep.tick < (getVar s dep.target).tick) →
      dep.target < s.vars.length →
      (getVar s dep.target).outOfDate = false →
      m.contains dep.target = false →
      ∀ p s', markDeps fuel s deps m rem = .ok p s' →
        (getVar s' dep.target).outOfDate = true := by
  intro fuel
  induction fuel with
  | zero =>
      intro deps s m rem _ dep _ _ _ _ _ p s' h
      cases h
  | succ f ihf =>
      intro deps s m rem hcnt dep hmem hcur hrange hfresh hnotin p s' hres
      match deps, hmem with
      | dep' :: rest, hmem =>
          rw [markDeps] at hres
          revert hres
          split
          next hlt =>
            intro hres
            rcases List.mem_cons.mp hmem with heq | htail
            · subst heq
              exact absurd hlt hcur
            · exact ihf rest s m (rem ++ [dep']) hcnt dep htail hcur hrange hfresh hnotin
                p s' hres
          next hlt =>
            split
            next m₁ s₁ h₁ =>
              intro hres
              have hA : MarkInv s s₁ := (((markInv_main f).1 s dep'.target m hcnt).1).okCaseRel h₁
              have hm₁ : m₁ = m := ((markInv_main f).1 s dep'.target m hcnt).2 _ _ h₁
              have hcnt₁ : CounterOnly s₁ := fun k d hk => hcnt k d ((hA.daemonEq k) ▸ hk)
              rcases List.mem_cons.mp hmem with heq | htail
              · subst heq
                have hs₁ : (getVar s₁ dep.target).outOfDate = true :=
                  mark_sets_stale f s dep.target m hcnt hrange hfresh hnotin s₁
                    (by rw [h₁]; rfl)
                have hB : MarkInv s₁ s' :=
                  (((markInv_main f).2 s₁ rest m₁ rem hcnt₁).1).okCaseRel hres
                exact hB.staleMono dep.target hs₁
              · cases hstale : (getVar s₁ dep.target).outOfDate with
                | true =>
                    have hB : MarkInv s₁ s' :=
                      (((markInv_main f).2 s₁ rest m₁ rem hcnt₁).1).okCaseRel hres
                    exact hB.staleMono dep.target hstale
                | false =>
                    refine ihf rest s₁ m₁ rem hcnt₁ dep htail ?_ ?_ hstale ?_ p s' hres
                    · rw [hA.tickEq]; exact hcur
                    · rw [hA.len]; exact hrange
                    · rw [hm₁]; exact hnotin
            next s₁ h₁ => intro hres; cases hres
            next h₁ => intro hres; cases hres

/-- A queue of pure logging daemons is run front to back, each exactly once:
the log receives exactly the queued values in registration order. -/
theorem runDaemons_logs : ∀ (vs : List Int) (fuel : Nat) (s : State),
    vs.length < fuel →
    runDaemons fuel s (vs.map .logVal) = .ok () { s with log := s.log ++ vs } := by
  intro vs
  induction vs with
  | nil =>
      intro fuel s h
      match fuel, h with
      | f + 1, _ => simp [runDaemons]
  | cons v rest ih =>
      intro fuel s h
      match fuel, h with
      | f + 1, h =>
          have hf : rest.length < f := by simpa using h
          have hf1 : 1 ≤ f := Nat.lt_of_lt_of_le (Nat.zero_lt_succ _) hf
          show runDaemons (f + 1) s (Cmd.logVal v :: rest.map .logVal) = _
          rw [runDaemons]
          have hcmd : runCmd f s (.logVal v) = .ok () { s with log := s.log ++ [v] } := by
            match f, hf1 with
            | f' + 1, _ => rfl
          rw [hcmd]
          show runDaemons f { s with log := s.log ++ [v] } (rest.map .logVal) =
            Res.ok () { s with log := s.log ++ (v :: rest) }
          rw [ih f { s with log := s.log ++ [v] } hf]
          simp

/-- The flush (`executeDaemons`) on a non-empty queue of logging daemons with
no flush in progress: it takes the whole queue, leaves the queue empty, runs
the batch FIFO, and resets `executingDaemons`. -/
theorem executeDaemons_flush (vs : List Int) (fuel : Nat) (s : State)
    (hq : s.daemonQueue = vs.map .logVal) (he : s.executingDaemons = none)
    (hne : vs ≠ []) (hfuel : vs.length + 1 < fuel) :
    executeDaemons fuel s = .ok () { s with daemonQueue := [], log := s.log ++ vs } := by
  match fuel, hfuel with
  | f + 1, hfuel =>
      have hf : vs.length < f := by omega
      rw [executeDaemons]
      have hg : (s.daemonQueue.length > 0 && s.executingDaemons.isNone) = true := by
        rw [hq, he]
        simp [List.length_pos, hne]
      rw [if_pos hg]
      have hrun := runDaemons_logs vs f (takeQueue s) hf
      rw [hq, hrun]
      show Res.ok () (clearExecuting { takeQueue s with log := (takeQueue s).log ++ vs }) =
        Res.ok () { s with daemonQueue := [], log := s.log ++ vs }
      simp [takeQueue, clearExecuting, he]

/-- A reentrant flush — `executeDaemons` entered while a batch is already
executing — is a no-op. -/
theorem executeDaemons_stuck (fuel : Nat) (s : State)
    (h : s.executingDaemons.isSome = true) (hfuel : 1 ≤ fuel) :
    executeDaemons fuel s = .ok () s := by
  match fuel, hfuel with
  | f + 1, _ =>
      rw [executeDaemons]
      have hg : (s.daemonQueue.length > 0 && s.executingDaemons.isNone) = false := by
        cases he : s.executingDaemons with
        | none => rw [he] at h; cases h
        | some d => simp [he]
      rw [hg]
      simp

/-- Refreshing an edge under the dedup invariant updates exactly the matching
edge's snapshot. -/
theorem refreshDep_sets : ∀ (l : List Dependency) (d : VarId) (t : Nat),
    (depTargets l).Nodup →
    ∀ dep ∈ refreshDep d t l, dep.target = d → dep.tick = t := by
  intro l
  induction l with
  | nil => intro d t _ dep h; cases h
  | cons dep₀ rest ih =>
      intro d t hnd dep hmem htgt
      have hnd' : (depTargets rest).Nodup ∧ dep₀.target ∉ depTargets rest := by
        have : depTargets (dep₀ :: rest) = dep₀.target :: depTargets rest := rfl
        rw [this] at hnd
        exact ⟨hnd.of_cons, (List.nodup_cons.mp hnd).1⟩
      by_cases hb : dep₀.target = d
      · rw [show refreshDep d t (dep₀ :: rest) = { dep₀ with tick := t } :: rest by
          simp [refreshDep, hb]] at hmem
        rcases List.mem_cons.mp hmem with heq | htail
        · rw [heq]
        · exfalso
          have : d ∈ depTargets rest := by
            rw [← htgt]
            exact List.mem_map_of_mem Dependency.target htail
          rw [← hb] at this
          exact hnd'.2 this
      · rw [show refreshDep d t (dep₀ :: rest) = dep₀ :: refreshDep d t rest by
          simp [refreshDep, hb]] at hmem
        rcases List.mem_cons.mp hmem with heq | htail
        · exact absurd (by rw [← heq]; exact htgt) hb
        · exact ih d t hnd'.1 dep htail htgt

/-! ### Claim scenarios and theorems -/

/-- C1 scenario: variable 0 is a pure value, variable 1 holds the formula
`() => v0.value`.  Reading 1 records the edge 0 → 1; writing 1 drops its
formula (write setter); writing 0 re-marks 1 stale through the surviving
edge.  Variable 1 is now stale with no formula. -/
def c1Init : State := initState
  [mkVar 7 none none none,
   mkVar 0 (some (.readVar 0)) none none]

def c1Prog : List Op := [.read 1, .write 1 5, .write 0 9]

def c1s : State := resState (runOps 30 c1Init c1Prog) c1Init

/-- C1: the spec claims reading a stale formula-less Variable returns its
stored value and never throws (compute guarded by "stale AND a formula is
present").  The code guards `computeFormula` only on `_outOfDate` and then
calls `this._formula.bind(...)` on `null`, so this read throws a `TypeError`
instead of returning the stored 5 — the code contradicts its own doc comment
("If the receiver has an out of date formula then compute the formula"). -/
theorem c1_stale_no_formula_read_throws :
    (runOps 30 c1Init c1Prog).isOk = true ∧
    (getVar c1s 1).outOfDate = true ∧
    (getVar c1s 1).formula = none ∧
    (getVar c1s 1).value = 5 ∧
    (getValue 30 c1s 1).isExn = true ∧
    (getValue 30 c1s 1).val? ≠ some 5 := by
  refine ⟨?_, ?_, ?_, ?_, ?_, ?_⟩ <;> decide

/-- C2 scenario: variable 0 holds a formula that throws. -/
def c2Init : State := initState [mkVar 3 (some .throwErr) none none]

/-- C2: the claim (spec §7) demands that the demand stack be restored on the
exceptional exit path of a read.  The exception does propagate, but the
source has no try/finally: `computeFormula` pushes the receiver onto
`demandingVariables` and the pop after the formula call is skipped when the
formula throws, leaving the stack corrupted ([0] instead of the original []). -/
theorem c2_throwing_formula_corrupts_demand_stack :
    c2Init.demandingVariables = [] ∧
    (getValue 20 c2Init 0).isExn = true ∧
    (resState (getValue 20 c2Init 0) c2Init).demandingVariables = [0] := by
  refine ⟨?_, ?_, ?_⟩ <;> decide

/-- C3 scenario (spec Scenario 1): x = variable 0 with value 0; y = variable
1 with formula `() => 10 * x.value` and daemon `() => n++` on counter 0. -/
def c3Init : State := initState
  [mkVar 0 none none none,
   mkVar 0 (some (.mul (.const 10) (.readVar 0))) none (some (.incr 0))]

/-- C3 counterexample: with *no reads performed beforehand* (as the claim
stipulates), no dependency edge from x to y exists yet, so the first write
`x.value = 1` marks nothing and the daemon does not fire: n stays 0, not 1
as claimed. -/
theorem c3_no_prior_read_daemon_does_not_fire :
    (setValue 20 c3Init 0 1).isOk = true ∧
    ctr (resState (setValue 20 c3Init 0 1) c3Init) 0 = 0 ∧
    ¬ctr (resState (setValue 20 c3Init 0 1) c3Init) 0 = 1 := by
  refine ⟨?_, ?_, ?_⟩ <;> decide

def c3s1 : State := resState (runOps 30 c3Init [.read 0, .read 1, .write 0 1]) c3Init

def c3s2 : State := resState (getValue 30 c3s1 0) c3s1

def c3s3 : State := resState (getValue 30 c3s2 1) c3s2

def c3s4 : State := resState (setValue 30 c3s3 0 2) c3s3

/-- C3 amended: in the scenario-1 program *with the initial reads of x and y
performed first* (as in the repository's test), the dependency edge exists,
and then: after `x.value = 1` the daemon count n is 1, `x.value` reads 1 and
`y.value` reads 10; after `x.value = 2`, n is 2 and `y.value` reads 20. -/
theorem c3_scenario_with_initial_reads :
    (runOps 30 c3Init [.read 0, .read 1, .write 0 1]).isOk = true ∧
    ctr c3s1 0 = 1 ∧
    (getValue 30 c3s1 0).val? = some 1 ∧
    (getValue 30 c3s2 1).val? = some 10 ∧
    ctr c3s3 0 = 1 ∧
    (setValue 30 c3s3 0 2).isOk = true ∧
    ctr c3s4 0 = 2 ∧
    (getValue 30 c3s4 1).val? = some 20 := by
  refine ⟨?_, ?_, ?_, ?_, ?_, ?_, ?_, ?_⟩ <;> decide

/-- C4 scenario: two variables whose formulas read each other through affine
maps — variable 0 computes `a * v1.value + b`, variable 1 computes
`c * v0.value + d` — with baselines `v0`, `v1`, exactly the shape of the
spec's celsius/fahrenheit pair.  Both start stale (freshly constructed with
formulas). -/
def mutualState (a b c d v0 v1 : Int) : State := initState
  [mkVar v0 (some (.add (.mul (.const a) (.readVar 1)) (.const b))) none none,
   mkVar v1 (some (.add (.mul (.const c) (.readVar 0)) (.const d))) none none]

/-- C4: reading either half of a mutually-dependent formula pair terminates
(the result is `ok` at fuel 30, never fuel exhaustion), and the nested
re-read of the first variable entered returns its stored baseline: reading
variable 0 yields `a * (c * v0 + d) + b` — the inner formula saw the
baseline `v0`, because `computeFormula` clears the stale flag *before*
invoking the formula, so the cyclic re-entry skips recomputation.
Symmetrically for variable 1. -/
theorem c4_mutual_formulas_terminate (a b c d v0 v1 : Int) :
    (getValue 30 (mutualState a b c d v0 v1) 0).val? = some (a * (c * v0 + d) + b) ∧
    (getValue 30 (mutualState a b c d v0 v1) 1).val? = some (c * (a * v1 + b) + d) := by
  constructor <;> rfl

/-- C5: a single write marks each reachable dependent stale at most once and
fires its daemon exactly once per flip — formalised as: under per-variable
counter daemons, every variable's counter changes by exactly the indicator
of its stale flag flipping in this write's mark pass — and the write itself
increments no variable's generation.  (The written variable's own daemon is
removed by the write before the pass, so its counter is covered by the
`j ≠ i` guard.) -/
theorem c5_write_marks_dependents_once (fuel : Nat) (s : State) (i : VarId) (v : Int)
    (hown : ownCounterDaemons s = true) :
    (∀ j, (getVar (resState (setValue fuel s i v) s) j).tick = (getVar s j).tick) ∧
    (∀ j, j ≠ i → (getVar s j).outOfDateDaemon = some (.incr j) →
      ctr (resState (setValue fuel s i v) s) j = ctr s j +
        (if (getVar s j).outOfDate = false ∧
            (getVar (resState (setValue fuel s i v) s) j).outOfDate = true
         then 1 else 0)) := by
  have hown' : OwnCounters s := ownCounters_of_check hown
  have hown₀ : OwnCounters (clearToValue s i v) := by
    intro k
    rw [getVar_clearToValue]
    split
    next hc => left; rfl
    next hc => exact hown' k
  have hcnt₀ : CounterOnly (clearToValue s i v) := ownCounters_counterOnly hown₀
  have hfields : ∀ j, j ≠ i →
      getVar (clearToValue s i v) j = getVar s j := by
    intro j hji
    rw [getVar_clearToValue]
    split
    next hc => exact absurd hc.1 hji
    next hc => rfl
  have htick₀ : ∀ j, (getVar (clearToValue s i v) j).tick = (getVar s j).tick := by
    intro j
    rw [getVar_clearToValue]
    split
    next hc => rw [hc.1]
    next hc => rfl
  have hflag₀ : ∀ j, (getVar (clearToValue s i v) j).outOfDate = (getVar s j).outOfDate := by
    intro j
    rw [getVar_clearToValue]
    split
    next hc => rw [hc.1]
    next hc => rfl
  unfold setValue
  split
  next u s₂ h₂ =>
      simp only [resState]
      have hA : MarkInv (clearToValue s i v) s₂ :=
        (((markInv_main fuel).1 (clearToValue s i v) i [] hcnt₀).1).okCaseRel h₂
      have hlen₂ : s₂.vars.length = s.vars.length := by
        rw [hA.len]
        exact vars_length_setVar s i _
      have htickF : ∀ j, (getVar (clearStale s₂ i) j).tick = (getVar s₂ j).tick := by
        intro j
        rw [getVar_clearStale]
        split
        next hc => rw [hc.1]
        next hc => rfl
      constructor
      · intro j
        show (getVar (clearStale s₂ i) j).tick = (getVar s j).tick
        rw [htickF j, hA.tickEq j, htick₀ j]
      · intro j hji hj
        show ctr (clearStale s₂ i) j = ctr s j + _
        have hj₀ : (getVar (clearToValue s i v) j).outOfDateDaemon = some (.incr j) := by
          rw [hfields j hji]
          exact hj
        have hctrF : ctr (clearStale s₂ i) j = ctr s₂ j := rfl
        have hflagF : (getVar (clearStale s₂ i) j).outOfDate = (getVar s₂ j).outOfDate := by
          rw [getVar_clearStale]
          split
          next hc => exact absurd hc.1 hji
          next hc => rfl
        have hspec := hA.ctrSpec hown₀ j hj₀
        have hc₀ : ctr (clearToValue s i v) j = ctr s j := rfl
        simp only [hctrF, hflagF, hspec, hc₀, hflag₀ j]
  next s₂ h₂ =>
      simp only [resState]
      have hA : MarkInv (clearToValue s i v) s₂ :=
        (((markInv_main fuel).1 (clearToValue s i v) i [] hcnt₀).1).exnCaseRel h₂
      constructor
      · intro j
        show (getVar s₂ j).tick = (getVar s j).tick
        rw [hA.tickEq j, htick₀ j]
      · intro j hji hj
        show ctr s₂ j = ctr s j + _
        have hj₀ : (getVar (clearToValue s i v) j).outOfDateDaemon = some (.incr j) := by
          rw [hfields j hji]
          exact hj
        have hspec := hA.ctrSpec hown₀ j hj₀
        have hc₀ : ctr (clearToValue s i v) j = ctr s j := rfl
        simp only [hspec, hc₀, hflag₀ j]
  next h₂ =>
      simp only [resState]
      constructor
      · intro j
        trivial
      · intro j hji hj
        rcases Bool.eq_false_or_eq_true ((getVar s j).outOfDate) with hb | hb <;> simp [hb]

/-- C5 witness scenario: the diamond x → d1 → z, x → d2 → z with a daemon on
each dependent, after a first read of z has recorded all edges. -/
def diamondInit : State := initState
  [mkVar 0 none none none,
   mkVar 0 (some (.readVar 0)) none (some (.incr 1)),
   mkVar 0 (some (.readVar 0)) none (some (.incr 2)),
   mkVar 0 (some (.add (.readVar 1) (.readVar 2))) none (some (.incr 3))]

def diamondS : State := resState (runOps 60 diamondInit [.read 3]) diamondInit

theorem c5_write_marks_dependents_once_witness :
    ownCounterDaemons diamondS = true ∧
    ((∀ j, (getVar (resState (setValue 60 diamondS 0 5) diamondS) j).tick =
        (getVar diamondS j).tick) ∧
     (∀ j, j ≠ 0 → (getVar diamondS j).outOfDateDaemon = some (.incr j) →
       ctr (resState (setValue 60 diamondS 0 5) diamondS) j = ctr diamondS j +
         (if (getVar diamondS j).outOfDate = false ∧
             (getVar (resState (setValue 60 diamondS 0 5) diamondS) j).outOfDate = true
          then 1 else 0))) ∧
    ctr (resState (setValue 60 diamondS 0 5) diamondS) 1 = 1 ∧
    ctr (resState (setValue 60 diamondS 0 5) diamondS) 2 = 1 ∧
    ctr (resState (setValue 60 diamondS 0 5) diamondS) 3 = 1 ∧
    ctr diamondS 1 = 0 ∧ ctr diamondS 2 = 0 ∧ ctr diamondS 3 = 0 :=
  ⟨by decide, c5_write_marks_dependents_once 60 diamondS 0 5 (by decide),
   by decide, by decide, by decide, by decide, by decide, by decide⟩

theorem tick_le_resState {s : State} {r : Res α} (h : ResInv s r) (j : VarId) :
    (getVar s j).tick ≤ (getVar (resState r s) j).tick := by
  cases r with
  | ok a s' => exact (h.okCaseSys rfl).tick j
  | exn s' => exact (h.exnCaseSys rfl).tick j
  | oot => exact Nat.le.refl

/-- A mark pass under counter daemons leaves every generation unchanged. -/
theorem mark_ticks (fuel : Nat) (s : State) (i : VarId) (m : List VarId)
    (hcnt : CounterOnly s) (j : VarId) :
    (getVar (resState (mark fuel s i m) s) j).tick = (getVar s j).tick := by
  cases hr : mark fuel s i m with
  | ok m' s' => exact ((((markInv_main fuel).1 s i m hcnt).1).okCaseRel hr).tickEq j
  | exn s' => exact ((((markInv_main fuel).1 s i m hcnt).1).exnCaseRel hr).tickEq j
  | oot => rfl

theorem counterOnly_clearToValue (s : State) (i : VarId) (v : Int)
    (h : CounterOnly s) : CounterOnly (clearToValue s i v) := by
  intro k d hk
  rw [getVar_clearToValue] at hk
  revert hk
  split
  next hc => intro hk; cases hk
  next hc => intro hk; exact h k d hk

theorem counterOnly_seedValue (s : State) (i : VarId) (v : Int)
    (h : CounterOnly s) : CounterOnly (seedValue s i v) := by
  intro k d hk
  rw [getVar_seedValue] at hk
  revert hk
  split
  next hc => intro hk; exact h i d hk
  next hc => intro hk; exact h k d hk

theorem counterOnly_installFormula (s : State) (i : VarId) (e : Expr)
    (h : CounterOnly s) : CounterOnly (installFormula s i e) := by
  intro k d hk
  rw [getVar_installFormula] at hk
  revert hk
  split
  next hc => intro hk; exact h i d hk
  next hc => intro hk; exact h k d hk

theorem setValue_ticks (fuel : Nat) (s : State) (i : VarId) (v : Int)
    (hcnt : CounterOnly s) (j : VarId) :
    (getVar (resState (setValue fuel s i v) s) j).tick = (getVar s j).tick := by
  have hcnt₀ := counterOnly_clearToValue s i v hcnt
  have htick₀ : ∀ k, (getVar (clearToValue s i v) k).tick = (getVar s k).tick := by
    intro k
    rw [getVar_clearToValue]
    split
    next hc => rw [hc.1]
    next hc => rfl
  unfold setValue
  split
  next u s₂ h₂ =>
      simp only [resState]
      have hA : MarkInv (clearToValue s i v) s₂ :=
        (((markInv_main fuel).1 (clearToValue s i v) i [] hcnt₀).1).okCaseRel h₂
      show (getVar (clearStale s₂ i) j).tick = (getVar s j).tick
      rw [getVar_clearStale]
      split
      next hc =>
        rw [show ({ getVar s₂ i with outOfDate := false } : VarState).tick =
          (getVar s₂ i).tick from rfl, hc.1, hA.tickEq i, htick₀ i]
      next hc => rw [hA.tickEq j, htick₀ j]
  next s₂ h₂ =>
      simp only [resState]
      have hA : MarkInv (clearToValue s i v) s₂ :=
        (((markInv_main fuel).1 (clearToValue s i v) i [] hcnt₀).1).exnCaseRel h₂
      rw [hA.tickEq j, htick₀ j]
  next h₂ => rfl

theorem setFormulaValue_ticks (fuel : Nat) (s : State) (i : VarId) (v : Int)
    (hcnt : CounterOnly s) (j : VarId) :
    (getVar (resState (setFormulaValue fuel s i v) s) j).tick = (getVar s j).tick := by
  have hcnt₀ := counterOnly_seedValue s i v hcnt
  have htick₀ : ∀ k, (getVar (seedValue s i v) k).tick = (getVar s k).tick := by
    intro k
    rw [getVar_seedValue]
    split
    next hc => rw [hc.1]
    next hc => rfl
  unfold setFormulaValue
  split
  next u s₂ h₂ =>
      simp only [resState]
      have hA : MarkInv (seedValue s i v) s₂ :=
        (((markInv_main fuel).1 (seedValue s i v) i [] hcnt₀).1).okCaseRel h₂
      show (getVar (clearStale s₂ i) j).tick = (getVar s j).tick
      rw [getVar_clearStale]
      split
      next hc =>
        rw [show ({ getVar s₂ i with outOfDate := false } : VarState).tick =
          (getVar s₂ i).tick from rfl, hc.1, hA.tickEq i, htick₀ i]
      next hc => rw [hA.tickEq j, htick₀ j]
  next s₂ h₂ =>
      simp only [resState]
      have hA : MarkInv (seedValue s i v) s₂ :=
        (((markInv_main fuel).1 (seedValue s i v) i [] hcnt₀).1).exnCaseRel h₂
      rw [hA.tickEq j, htick₀ j]
  next h₂ => rfl

theorem setFormula_ticks (fuel : Nat) (s : State) (i : VarId) (e : Expr)
    (hcnt : CounterOnly s) (j : VarId) :
    (getVar (resState (setFormula fuel s i e) s) j).tick = (getVar s j).tick := by
  have hcnt₀ := counterOnly_installFormula s i e hcnt
  have htick₀ : ∀ k, (getVar (installFormula s i e) k).tick = (getVar s k).tick := by
    intro k
    rw [getVar_installFormula]
    split
    next hc => rw [hc.1]
    next hc => rfl
  unfold setFormula
  split
  next u s₂ h₂ =>
      simp only [resState]
      have hA : MarkInv (installFormula s i e) s₂ :=
        (((markInv_main fuel).1 (installFormula s i e) i [] hcnt₀).1).okCaseRel h₂
      rw [hA.tickEq j, htick₀ j]
  next s₂ h₂ =>
      simp only [resState]
      have hA : MarkInv (installFormula s i e) s₂ :=
        (((markInv_main fuel).1 (installFormula s i e) i [] hcnt₀).1).exnCaseRel h₂
      rw [hA.tickEq j, htick₀ j]
  next h₂ => rfl

/-- C7: the generation counter is monotonically non-decreasing across any
sequence of public operations; a completed recomputation of a stale variable
bumps its generation by exactly one; the write setter, the `formulaValue`
setter, the `formula` setter and mark passes (under counter daemons) change
no generation; and `peek` is a pure projection of the stored value, touching
nothing. -/
theorem c7_generation_counter (fuel : Nat) (s : State) (i : VarId)
    (hcnt : allCounterDaemons s = true)
    (hod : (getVar s i).outOfDate = true)
    (hok : (computeFormula fuel s i).isOk = true) :
    (∀ ops j, (getVar s j).tick ≤ (getVar (resState (runOps fuel s ops) s) j).tick) ∧
    ((getVar (resState (computeFormula fuel s i) s) i).tick = (getVar s i).tick + 1) ∧
    (∀ i' v j, (getVar (resState (setValue fuel s i' v) s) j).tick = (getVar s j).tick) ∧
    (∀ i' v j, (getVar (resState (setFormulaValue fuel s i' v) s) j).tick =
      (getVar s j).tick) ∧
    (∀ i' e j, (getVar (resState (setFormula fuel s i' e) s) j).tick = (getVar s j).tick) ∧
    (∀ i' m j, (getVar (resState (mark fuel s i' m) s) j).tick = (getVar s j).tick) ∧
    (∀ j, peek s j = (getVar s j).value) := by
  have hcnt' : CounterOnly s := counterOnly_of_all hcnt
  refine ⟨?_, ?_, ?_, ?_, ?_, ?_, ?_⟩
  · intro ops j
    exact tick_le_resState (resInv_runOps fuel ops s) j
  · exact computeFormula_tick_succ fuel s i hod hok
  · intro i' v j
    exact setValue_ticks fuel s i' v hcnt' j
  · intro i' v j
    exact setFormulaValue_ticks fuel s i' v hcnt' j
  · intro i' e j
    exact setFormula_ticks fuel s i' e hcnt' j
  · intro i' m j
    exact mark_ticks fuel s i' m hcnt' j
  · intro j
    rfl

/-- C7 witness scenario: a stale formula variable with a counter daemon. -/
def c7S : State := initState
  [mkVar 4 none none none,
   mkVar 0 (some (.mul (.const 3) (.readVar 0))) none (some (.incr 1))]

theorem c7_generation_counter_witness :
    allCounterDaemons c7S = true ∧
    (getVar c7S 1).outOfDate = true ∧
    (computeFormula 20 c7S 1).isOk = true ∧
    ((∀ ops j, (getVar c7S j).tick ≤ (getVar (resState (runOps 20 c7S ops) c7S) j).tick) ∧
     ((getVar (resState (computeFormula 20 c7S 1) c7S) 1).tick = (getVar c7S 1).tick + 1) ∧
     (∀ i' v j, (getVar (resState (setValue 20 c7S i' v) c7S) j).tick =
       (getVar c7S j).tick) ∧
     (∀ i' v j, (getVar (resState (setFormulaValue 20 c7S i' v) c7S) j).tick =
       (getVar c7S j).tick) ∧
     (∀ i' e j, (getVar (resState (setFormula 20 c7S i' e) c7S) j).tick =
       (getVar c7S j).tick) ∧
     (∀ i' m j, (getVar (resState (mark 20 c7S i' m) c7S) j).tick =
       (getVar c7S j).tick) ∧
     (∀ j, peek c7S j = (getVar c7S j).value)) :=
  ⟨by decide, by decide, by decide,
   c7_generation_counter 20 c7S 1 (by decide) (by decide) (by decide)⟩

/-- After a root `mark` call on an in-range variable not on the marking list,
the variable is stale in the resulting state regardless of its prior flag. -/
theorem mark_stale_result (fuel : Nat) (s : State) (i : VarId) (m : List VarId)
    (hcnt : CounterOnly s) (hi : i < s.vars.length) (hm : m.contains i = false) :
    ∀ s', (mark fuel s i m).state? = some s' → (getVar s' i).outOfDate = true := by
  cases hb : (getVar s i).outOfDate with
  | false => exact mark_sets_stale fuel s i m hcnt hi hb hm
  | true =>
      match fuel with
      | 0 => intro s' h; cases h
      | f + 1 =>
          rw [mark, hb, hm]
          simp only [Bool.not_true, Bool.false_and, Bool.false_eq_true, if_false]
          intro s' h
          cases h
          exact hb

theorem contains_singleton_ne {a b : Nat} (h : b ≠ a) :
    ([a] : List Nat).contains b = false := by
  simp [List.contains_eq_any_beq]
  exact fun he => absurd he h

/-- A root `mark` on a fresh variable marks each of its current-edged, fresh,
in-range dependents stale. -/
theorem mark_marks_dependents (fuel : Nat) (s : State) (i : VarId)
    (hcnt : CounterOnly s) (hod : (getVar s i).outOfDate = false) :
    ∀ dep ∈ (getVar s i).dependents, ¬(dep.tick < (getVar s dep.target).tick) →
      dep.target < s.vars.length → (getVar s dep.target).outOfDate = false →
      dep.target ≠ i →
      ∀ m' s', mark fuel s i [] = .ok m' s' → (getVar s' dep.target).outOfDate = true := by
  match fuel with
  | 0 => intro dep _ _ _ _ _ m' s' h; cases h
  | f + 1 =>
      intro dep hmem hcur hrange hfresh hne m' s' hres
      rw [mark, hod] at hres
      rw [show (([] : List VarId).contains i) = false from rfl] at hres
      simp only [Bool.not_false, Bool.and_self, if_true] at hres
      revert hres
      split
      next u s₂ h₂ =>
        have hcnt₁ : CounterOnly (markStale s i) := by
          intro k d hk
          refine hcnt k d ?_
          rw [getVar_markStale] at hk
          revert hk
          split
          next hc => intro hk; rw [hc.1]; exact hk
          next hc => intro hk; exact hk
        have hC : CmdOnlyCtrs (markStale s i) s₂ :=
          (execOOD_counterOnly f (markStale s i) i hcnt₁).okCaseRel h₂
        have hgv : ∀ k, getVar s₂ k = getVar (markStale s i) k :=
          fun k => getVar_congr hC.1 k
        have hdeps : (getVar s₂ i).dependents = (getVar s i).dependents := by
          rw [hgv i, getVar_markStale]
          split
          next hc => rfl
          next hc => rfl
        have hcnt₂ : CounterOnly s₂ := by
          intro k d hk
          rw [hgv k] at hk
          exact hcnt₁ k d hk
        split
        next marked₂ removals s₃ h₃ =>
          intro hres
          cases hres
          have htickeq : ∀ k, (getVar s₂ k).tick = (getVar s k).tick := by
            intro k
            rw [hgv k, getVar_markStale]
            split
            next hc => rw [hc.1]
            next hc => rfl
          have hflag₂ : (getVar s₂ dep.target).outOfDate = false := by
            rw [hgv dep.target, getVar_markStale]
            split
            next hc => exact absurd hc.1 hne
            next hc => exact hfresh
          have hlen₂ : s₂.vars.length = s.vars.length := by
            rw [hC.1]
            exact vars_length_setVar s i _
          have hmem₂ : dep ∈ (getVar s₂ i).dependents := by rw [hdeps]; exact hmem
          have hs₃ := markDeps_hits f (getVar s₂ i).dependents s₂ ([] ++ [i]) [] hcnt₂
            dep hmem₂ (by rw [htickeq]; exact hcur) (by rw [hlen₂]; exact hrange)
            hflag₂ (by exact contains_singleton_ne hne) _ _ h₃
          exact (markInv_removeDeps i removals s₃).staleMono dep.target hs₃
        next s₃ h₃ => intro hres; cases hres
        next h₃ => intro hres; cases hres
      next s₂ h₂ => intro hres; cases hres
      next h₂ => intro hres; cases hres

/-- C9 counterexample scenario: variable 0 (formula `() => 5`) with dependent
variable 1 (formula `() => v0.value`, daemon `n++` on counter 1).  Reading 1
records the current edge 0 → 1; replacing 0's formula marks both stale
(firing the daemon once, n = 1); seeding 1 via `formulaValue` makes 1 fresh
again while 0 stays stale and the edge stays current. -/
def c9Init : State := initState
  [mkVar 5 (some (.const 5)) none none,
   mkVar 0 (some (.readVar 0)) none (some (.incr 1))]

def c9Prog : List Op :=
  [.read 1, .writeFormula 0 (.const 7), .writeFormulaValue 1 99]

def c9pre : State := resState (runOps 60 c9Init c9Prog) c9Init

def c9post : State := resState (setFormula 60 c9pre 0 (.const 8)) c9pre

/-- C9 counterexample: with variable 0 already stale, assigning through the
formula setter does *not* mark its fresh, current-edged dependent 1 stale and
does not fire 1's daemon (mark returns immediately on an already-stale
receiver), contradicting the claim's "whatever its prior stale state …
marks … its non-stale dependents stale — firing their outOfDateDaemons". -/
theorem c9_already_stale_setter_marks_nothing :
    (runOps 60 c9Init c9Prog).isOk = true ∧
    (getVar c9pre 0).outOfDate = true ∧
    (getVar c9pre 1).outOfDate = false ∧
    (getVar c9pre 0).dependents = [Dependency.mk 1 1] ∧
    (getVar c9pre 1).tick = 1 ∧
    ctr c9pre 1 = 1 ∧
    (setFormula 60 c9pre 0 (.const 8)).isOk = true ∧
    (getVar c9post 1).outOfDate = false ∧
    ctr c9post 1 = 1 := by
  refine ⟨?_, ?_, ?_, ?_, ?_, ?_, ?_, ?_, ?_⟩ <;> decide

/-- C9 amended: the formula setter replaces the callable, keeps every
variable's daemon and context, changes no value and no generation, and never
clears the stale flag — the receiver is stale afterwards whatever its prior
state, with the new formula computed only on the next read.  Daemons of
dependents fire exactly once per flip of their stale flag (counter
indicator), and *when the receiver was not already stale*, every dependent
with a current edge that is itself fresh and in range is marked stale; if
the receiver was already stale the mark pass is a no-op on dependents. -/
theorem c9_formula_setter_replaces_and_marks (fuel : Nat) (s : State) (i : VarId)
    (e : Expr)
    (hown : ownCounterDaemons s = true)
    (hi : i < s.vars.length)
    (hok : (setFormula fuel s i e).isOk = true) :
    ((getVar (resState (setFormula fuel s i e) s) i).formula = some e) ∧
    (∀ j, (getVar (resState (setFormula fuel s i e) s) j).outOfDateDaemon =
      (getVar s j).outOfDateDaemon) ∧
    (∀ j, (getVar (resState (setFormula fuel s i e) s) j).thisFormula =
      (getVar s j).thisFormula) ∧
    (∀ j, (getVar (resState (setFormula fuel s i e) s) j).value = (getVar s j).value) ∧
    (∀ j, (getVar (resState (setFormula fuel s i e) s) j).tick = (getVar s j).tick) ∧
    ((getVar (resState (setFormula fuel s i e) s) i).outOfDate = true) ∧
    (∀ j, (getVar s j).outOfDateDaemon = some (.incr j) →
      ctr (resState (setFormula fuel s i e) s) j = ctr s j +
        (if (getVar s j).outOfDate = false ∧
            (getVar (resState (setFormula fuel s i e) s) j).outOfDate = true
         then 1 else 0)) ∧
    ((getVar s i).outOfDate = false →
      ∀ dep ∈ (getVar s i).dependents, ¬(dep.tick < (getVar s dep.target).tick) →
        dep.target < s.vars.length → (getVar s dep.target).outOfDate = false →
        dep.target ≠ i →
        (getVar (resState (setFormula fuel s i e) s) dep.target).outOfDate = true) := by
  have hown' : OwnCounters s := ownCounters_of_check hown
  have hcnt' : CounterOnly s := ownCounters_counterOnly hown'
  have hcnt₀ : CounterOnly (installFormula s i e) := counterOnly_installFormula s i e hcnt'
  have hdaemon₀ : ∀ j, (getVar (installFormula s i e) j).outOfDateDaemon =
      (getVar s j).outOfDateDaemon := by
    intro j
    rw [getVar_installFormula]
    split
    next hc => rw [hc.1]
    next hc => rfl
  have hown₀ : OwnCounters (installFormula s i e) := by
    intro k
    rw [hdaemon₀ k]
    exact hown' k
  have hthis₀ : ∀ j, (getVar (installFormula s i e) j).thisFormula =
      (getVar s j).thisFormula := by
    intro j
    rw [getVar_installFormula]
    split
    next hc => rw [hc.1]
    next hc => rfl
  have hvalue₀ : ∀ j, (getVar (installFormula s i e) j).value = (getVar s j).value := by
    intro j
    rw [getVar_installFormula]
    split
    next hc => rw [hc.1]
    next hc => rfl
  have htick₀ : ∀ j, (getVar (installFormula s i e) j).tick = (getVar s j).tick := by
    intro j
    rw [getVar_installFormula]
    split
    next hc => rw [hc.1]
    next hc => rfl
  have hflag₀ : ∀ j, (getVar (installFormula s i e) j).outOfDate =
      (getVar s j).outOfDate := by
    intro j
    rw [getVar_installFormula]
    split
    next hc => rw [hc.1]
    next hc => rfl
  have hdeps₀ : (getVar (installFormula s i e) i).dependents =
      (getVar s i).dependents := by
    rw [getVar_installFormula]
    split
    next hc => rfl
    next hc => rfl
  have hform₀ : (getVar (installFormula s i e) i).formula = some e := by
    rw [getVar_installFormula]
    rw [if_pos ⟨rfl, hi⟩]
  have hlen₀ : (installFormula s i e).vars.length = s.vars.length :=
    vars_length_setVar s i _
  unfold setFormula at hok ⊢
  cases hmk : mark fuel (installFormula s i e) i [] with
  | oot => rw [hmk] at hok; simp [Res.isOk] at hok
  | exn s₂ => rw [hmk] at hok; simp [Res.isOk] at hok
  | ok u s₂ =>
      rw [hmk] at hok
      have hA : MarkInv (installFormula s i e) s₂ :=
        (((markInv_main fuel).1 (installFormula s i e) i [] hcnt₀).1).okCaseRel hmk
      refine ⟨?_, ?_, ?_, ?_, ?_, ?_, ?_, ?_⟩
      · show (getVar s₂ i).formula = some e
        rw [hA.formulaEq i, hform₀]
      · intro j
        show (getVar s₂ j).outOfDateDaemon = _
        rw [hA.daemonEq j, hdaemon₀ j]
      · intro j
        show (getVar s₂ j).thisFormula = _
        rw [hA.thisEq j, hthis₀ j]
      · intro j
        show (getVar s₂ j).value = _
        rw [hA.valueEq j, hvalue₀ j]
      · intro j
        show (getVar s₂ j).tick = _
        rw [hA.tickEq j, htick₀ j]
      · show (getVar s₂ i).outOfDate = true
        exact mark_stale_result fuel (installFormula s i e) i [] hcnt₀
          (by rw [hlen₀]; exact hi) rfl s₂ (by rw [hmk]; rfl)
      · intro j hj
        show ctr s₂ j = ctr s j + _
        have hj₀ : (getVar (installFormula s i e) j).outOfDateDaemon =
            some (.incr j) := by
          rw [hdaemon₀ j]
          exact hj
        have hspec := hA.ctrSpec hown₀ j hj₀
        have hc₀ : ctr (installFormula s i e) j = ctr s j := rfl
        have hflagF : (getVar (resState (Res.ok u s₂) s) j).outOfDate =
            (getVar s₂ j).outOfDate := rfl
        simp only [hspec, hc₀, hflag₀ j, resState]
      · intro hod dep hmem hcur hrange hfresh hne
        show (getVar s₂ dep.target).outOfDate = true
        refine mark_marks_dependents fuel (installFormula s i e) i hcnt₀
          (by rw [hflag₀ i]; exact hod) dep ?_ ?_ ?_ ?_ hne u s₂ hmk
        · rw [hdeps₀]; exact hmem
        · rw [htick₀ dep.target]; exact hcur
        · rw [hlen₀]; exact hrange
        · rw [hflag₀ dep.target]; exact hfresh

/-- C9 witness scenario: variable 0 fresh with formula, variable 1 a
current-edged fresh dependent with its own counter daemon. -/
def c9wS : State := resState (runOps 60 c9Init [.read 1]) c9Init

theorem c9_formula_setter_replaces_and_marks_witness :
    ownCounterDaemons c9wS = true ∧
    0 < c9wS.vars.length ∧
    (setFormula 60 c9wS 0 (.const 9)).isOk = true ∧
    (((getVar (resState (setFormula 60 c9wS 0 (.const 9)) c9wS) 0).formula =
        some (.const 9)) ∧
     (∀ j, (getVar (resState (setFormula 60 c9wS 0 (.const 9)) c9wS) j).outOfDateDaemon =
       (getVar c9wS j).outOfDateDaemon) ∧
     (∀ j, (getVar (resState (setFormula 60 c9wS 0 (.const 9)) c9wS) j).thisFormula =
       (getVar c9wS j).thisFormula) ∧
     (∀ j, (getVar (resState (setFormula 60 c9wS 0 (.const 9)) c9wS) j).value =
       (getVar c9wS j).value) ∧
     (∀ j, (getVar (resState (setFormula 60 c9wS 0 (.const 9)) c9wS) j).tick =
       (getVar c9wS j).tick) ∧
     ((getVar (resState (setFormula 60 c9wS 0 (.const 9)) c9wS) 0).outOfDate = true) ∧
     (∀ j, (getVar c9wS j).outOfDateDaemon = some (.incr j) →
       ctr (resState (setFormula 60 c9wS 0 (.const 9)) c9wS) j = ctr c9wS j +
         (if (getVar c9wS j).outOfDate = false ∧
             (getVar (resState (setFormula 60 c9wS 0 (.const 9)) c9wS) j).outOfDate = true
          then 1 else 0)) ∧
     ((getVar c9wS 0).outOfDate = false →
       ∀ dep ∈ (getVar c9wS 0).dependents,
         ¬(dep.tick < (getVar c9wS dep.target).tick) →
         dep.target < c9wS.vars.length →
         (getVar c9wS dep.target).outOfDate = false →
         dep.target ≠ 0 →
         (getVar (resState (setFormula 60 c9wS 0 (.const 9)) c9wS) dep.target).outOfDate =
           true)) ∧
    ctr (resState (setFormula 60 c9wS 0 (.const 9)) c9wS) 1 = 1 ∧
    (getVar (resState (setFormula 60 c9wS 0 (.const 9)) c9wS) 1).outOfDate = true :=
  ⟨by decide, by decide, by decide,
   c9_formula_setter_replaces_and_marks 60 c9wS 0 (.const 9) (by decide) (by decide)
     (by decide),
   by decide, by decide⟩

/-- C8: the dependents collection holds at most one edge per distinct
dependent, as an invariant preserved by every operation sequence; and when a
variable is read under a demander `d` (top of the demand stack),
`updateDependencies` appends a fresh edge `⟨d, d.tick + 1⟩` only when no edge
to `d` exists, and otherwise refreshes the existing edge's snapshot to
`d.tick + 1` without changing the set of edge keys. -/
theorem c8_dependents_deduplicated (fuel : Nat) (s : State) (i d : VarId)
    (hnd : DepsNodup s) (hi : i < s.vars.length)
    (hd : s.demandingVariables.getLast? = some d) :
    (∀ ops, DepsNodup (resState (runOps fuel s ops) s)) ∧
    ((getVar s i).dependents.find? (fun dep => dep.target == d) = none →
      (getVar (updateDependencies s i) i).dependents =
        (getVar s i).dependents ++ [Dependency.mk d ((getVar s d).tick + 1)]) ∧
    (∀ dep₀, (getVar s i).dependents.find? (fun dep => dep.target == d) = some dep₀ →
      depTargets (getVar (updateDependencies s i) i).dependents =
        depTargets (getVar s i).dependents ∧
      ∀ dep ∈ (getVar (updateDependencies s i) i).dependents, dep.target = d →
        dep.tick = (getVar s d).tick + 1) := by
  refine ⟨?_, ?_, ?_⟩
  · intro ops
    cases hr : runOps fuel s ops with
    | ok u s' => exact (((resInv_runOps fuel ops s)).okCaseSys hr).nodup hnd
    | exn s' => exact (((resInv_runOps fuel ops s)).exnCaseSys hr).nodup hnd
    | oot => exact hnd
  · intro hfind
    unfold updateDependencies
    rw [hd]
    simp only
    rw [hfind]
    rw [getVar_setVar_self s i _ hi]
  · intro dep₀ hfind
    unfold updateDependencies
    rw [hd]
    simp only
    rw [hfind, getVar_setVar_self s i _ hi]
    constructor
    · exact depTargets_refreshDep d _ (getVar s i).dependents
    · exact refreshDep_sets (getVar s i).dependents d _ (depsNodup_getVar hnd i)

/-- C8 witness: a mid-read state where variable 1 (a formula reading variable
0) is the demander on the stack and variable 0 already carries the edge. -/
def c8S : State :=
  { vars := [{ value := 5, formula := none, thisFormula := none,
               outOfDateDaemon := none, tick := 0, outOfDate := false,
               dependents := [Dependency.mk 1 1] },
             mkVar 0 (some (.readVar 0)) none none],
    demandingVariables := [1], daemonQueue := [], executingDaemons := none,
    counters := fun _ => 0, log := [] }

theorem c8_dependents_deduplicated_witness :
    DepsNodup c8S ∧ 0 < c8S.vars.length ∧
    c8S.demandingVariables.getLast? = some 1 ∧
    ((∀ ops, DepsNodup (resState (runOps 20 c8S ops) c8S)) ∧
     ((getVar c8S 0).dependents.find? (fun dep => dep.target == 1) = none →
       (getVar (updateDependencies c8S 0) 0).dependents =
         (getVar c8S 0).dependents ++ [Dependency.mk 1 ((getVar c8S 1).tick + 1)]) ∧
     (∀ dep₀, (getVar c8S 0).dependents.find? (fun dep => dep.target == 1) = some dep₀ →
       depTargets (getVar (updateDependencies c8S 0) 0).dependents =
         depTargets (getVar c8S 0).dependents ∧
       ∀ dep ∈ (getVar (updateDependencies c8S 0) 0).dependents, dep.target = 1 →
         dep.tick = (getVar c8S 1).tick + 1)) ∧
    (getVar (updateDependencies c8S 0) 0).dependents = [Dependency.mk 1 1] :=
  ⟨by decide, by decide, by decide,
   c8_dependents_deduplicated 20 c8S 0 1 (by decide) (by decide) (by decide),
   by decide⟩

/-- C10 scenario: a queue holding a throwing daemon followed by a logging
daemon. -/
def c10Init : State :=
  addSystemDaemon (addSystemDaemon (initState [mkVar 4 none none none]) .throwErr)
    (.logVal 1)

def c10s : State := resState (getValue 30 c10Init 0) c10Init

def c10s2 : State := addSystemDaemon c10s (.logVal 2)

def c10s3 : State := resState (getValue 30 c10s2 0) c10s2

/-- C10: a throwing system daemon propagates to the reader, the rest of the
taken batch never runs, and `executingDaemons` is never reset (the reset is
skipped on the exceptional path and nothing else ever writes the field), so
every later flush is a no-op forever: the queue only accumulates and no
daemon registered afterwards ever executes.  The general conjuncts state the
permanence over arbitrary subsequent operation sequences; the concrete
conjuncts evaluate the scenario. -/
theorem c10_throwing_daemon_wedges_flushes (fuel : Nat) (s : State) (d : List Cmd)
    (hstuck : s.executingDaemons = some d) :
    (∀ ops, (resState (runOps fuel s ops) s).executingDaemons = some d ∧
      ∃ ex, (resState (runOps fuel s ops) s).daemonQueue = s.daemonQueue ++ ex) ∧
    (1 ≤ fuel → executeDaemons fuel s = .ok () s) ∧
    (getValue 30 c10Init 0).isExn = true ∧
    c10s.log = [] ∧
    c10s.executingDaemons = some [.throwErr, .logVal 1] ∧
    (getValue 30 c10s2 0).isOk = true ∧
    c10s3.log = [] ∧
    c10s3.daemonQueue = [.logVal 2] ∧
    c10s3.executingDaemons = some [.throwErr, .logVal 1] := by
  refine ⟨?_, ?_, ?_, ?_, ?_, ?_, ?_, ?_, ?_⟩
  · intro ops
    cases hr : runOps fuel s ops with
    | ok u s' => exact (((resInv_runOps fuel ops s)).okCaseSys hr).stuck d hstuck
    | exn s' => exact (((resInv_runOps fuel ops s)).exnCaseSys hr).stuck d hstuck
    | oot => exact ⟨hstuck, [], by simp [resState]⟩
  · intro hfuel
    exact executeDaemons_stuck fuel s (by rw [hstuck]; rfl) hfuel
  · decide
  · decide
  · decide
  · decide
  · decide
  · decide
  · decide

theorem c10_throwing_daemon_wedges_flushes_witness :
    c10s.executingDaemons = some [.throwErr, .logVal 1] ∧
    ((∀ ops, (resState (runOps 30 c10s ops) c10s).executingDaemons =
        some [.throwErr, .logVal 1] ∧
      ∃ ex, (resState (runOps 30 c10s ops) c10s).daemonQueue = c10s.daemonQueue ++ ex) ∧
     (1 ≤ 30 → executeDaemons 30 c10s = .ok () c10s) ∧
     (getValue 30 c10Init 0).isExn = true ∧
     c10s.log = [] ∧
     c10s.executingDaemons = some [.throwErr, .logVal 1] ∧
     (getValue 30 c10s2 0).isOk = true ∧
     c10s3.log = [] ∧
     c10s3.daemonQueue = [.logVal 2] ∧
     c10s3.executingDaemons = some [.throwErr, .logVal 1]) :=
  ⟨by decide,
   c10_throwing_daemon_wedges_flushes 30 c10s [.throwErr, .logVal 1] (by decide)⟩

/-- C6 scenario: the first registered daemon reenters the system (it
registers a new daemon and reads a variable mid-flush), the second logs. -/
def c6Init : State :=
  addSystemDaemon
    (addSystemDaemon (initState [mkVar 4 none none none])
      (.seq (.addDaemon (.logVal 9)) (.seq (.readVar 0) (.logVal 1))))
    (.logVal 2)

def c6s : State := resState (getValue 30 c6Init 0) c6Init

def c6s2 : State := resState (getValue 30 c6s 0) c6s

def c6s3 : State := resState (getValue 30 c6s2 0) c6s2

/-- C6: system daemons run exactly once, FIFO within one flush, and are
removed; a flush entered reentrantly (from inside a daemon) is a no-op; a
daemon registered during a flush waits for the next flush.  Conjunct 1 is
the general FIFO/once/removal statement over arbitrary logging queues;
conjunct 2 the general reentrancy no-op; the rest evaluate the scenario: the
first read flushes both daemons in order (log [1, 2]), the daemon registered
mid-flush (9) is deferred — the reentrant read inside daemon 1 does not run
it — and runs on the next read; a third read fires nothing again. -/
theorem c6_system_daemons_fifo_once :
    (∀ (vs : List Int) (fuel : Nat) (s : State),
      s.daemonQueue = vs.map .logVal → s.executingDaemons = none → vs ≠ [] →
      vs.length + 1 < fuel →
      executeDaemons fuel s = .ok () { s with daemonQueue := [], log := s.log ++ vs }) ∧
    (∀ (fuel : Nat) (s : State), s.executingDaemons.isSome = true → 1 ≤ fuel →
      executeDaemons fuel s = .ok () s) ∧
    (getValue 30 c6Init 0).isOk = true ∧
    c6s.log = [1, 2] ∧
    c6s.daemonQueue = [.logVal 9] ∧
    c6s.executingDaemons = none ∧
    c6s2.log = [1, 2, 9] ∧
    c6s2.daemonQueue = [] ∧
    c6s3.log = [1, 2, 9] := by
  refine ⟨executeDaemons_flush, executeDaemons_stuck, ?_, ?_, ?_, ?_, ?_, ?_, ?_⟩ <;> decide

def c6fS : State :=
  addSystemDaemon (addSystemDaemon (initState []) (.logVal 5)) (.logVal 6)

theorem c6_system_daemons_fifo_once_witness :
    c6fS.daemonQueue = ([5, 6] : List Int).map .logVal ∧
    c6fS.executingDaemons = none ∧
    executeDaemons 10 c6fS = .ok () { c6fS with daemonQueue := [], log := c6fS.log ++ [5, 6] } ∧
    executeDaemons 10 (takeQueue c6fS) = .ok () (takeQueue c6fS) :=
  ⟨by decide, by decide,
   c6_system_daemons_fifo_once.1 [5, 6] 10 c6fS (by decide) (by decide) (by decide)
     (by decide),
   c6_system_daemons_fifo_once.2.1 10 (takeQueue c6fS) (by decide) (by decide)⟩
